import Mathlib

/-!
Verification of the Base64 transcoder (`lib/base64.c`, two revisions).

The repository contains two revisions of the same file:
* revision 000: fixed 3-byte/4-symbol grouping (`base64_encode000`,
  `base64_decode000` below);
* revision 001: running bit-accumulator consuming one symbol at a time
  (`base64_encode001`, `base64_decode001` below).

Bytes and characters are modelled as `Nat` values; the C `u8` typing of
source bytes becomes the hypothesis `∀ b ∈ src, b < 256` on theorems.
32-bit wrap-around of the C `u32`/`int` intermediates is modelled with
explicit `% 2^32`; the sign bit of the C `int` accumulator `val` (built
from sign-extended `s8` reverse-table entries) becomes the test
`2^31 ≤ val` on the 32-bit two's-complement bit pattern.  Decoding
returns `Option (List Nat)`: `none` models the C return value `-1`.
-/

set_option maxHeartbeats 1000000
set_option maxRecDepth 10000

/-- The `enum base64_variant` selector: `BASE64_STD`, `BASE64_URLSAFE`,
`BASE64_IMAP`. -/
inductive Variant where
  | std
  | urlsafe
  | imap
deriving DecidableEq

/-- The forward alphabet `base64_tables[variant]`, as the list of the 64
ASCII codes of the C string literal. -/
def base64_tables (v : Variant) : List Nat :=
  match v with
  | .std =>
      "ABCDEFGHIJKLMNOPQRSTUVWXYZabcdefghijklmnopqrstuvwxyz0123456789+/".toList.map
        Char.toNat
  | .urlsafe =>
      "ABCDEFGHIJKLMNOPQRSTUVWXYZabcdefghijklmnopqrstuvwxyz0123456789-_".toList.map
        Char.toNat
  | .imap =>
      "ABCDEFGHIJKLMNOPQRSTUVWXYZabcdefghijklmnopqrstuvwxyz0123456789+,".toList.map
        Char.toNat

/-- The variant-specific symbol for value 62 (`ch_62` in `BASE64_REV_INIT`). -/
def ch62 (v : Variant) : Nat :=
  match v with
  | .std => 43
  | .urlsafe => 45
  | .imap => 43

/-- The variant-specific symbol for value 63 (`ch_63` in `BASE64_REV_INIT`). -/
def ch63 (v : Variant) : Nat :=
  match v with
  | .std => 47
  | .urlsafe => 95
  | .imap => 44

/-- The reverse lookup table `base64_rev_maps[variant]` built by
`BASE64_REV_INIT(ch_62, ch_63)`: every entry is `-1` except
`'A'..'Z' ↦ 0..25`, `'a'..'z' ↦ 26..51`, `'0'..'9' ↦ 52..61`,
`ch_62 ↦ 62`, `ch_63 ↦ 63`.  Entries are the C `s8` values, as `Int`. -/
def base64_rev_maps (v : Variant) (c : Nat) : Int :=
  if 65 ≤ c ∧ c ≤ 90 then Int.ofNat (c - 65)
  else if 97 ≤ c ∧ c ≤ 122 then Int.ofNat (c - 97 + 26)
  else if 48 ≤ c ∧ c ≤ 57 then Int.ofNat (c - 48 + 52)
  else if c = ch62 v then 62
  else if c = ch63 v then 63
  else -1

/-- The 32-bit two's-complement pattern of a reverse-table entry after the
C integer promotion of the `s8` value (so `-1` becomes `2^32 - 1`). -/
def rev32 (v : Variant) (c : Nat) : Nat :=
  ((base64_rev_maps v c) % ((2 : Int) ^ 32)).toNat

/-- `base64_encode` of revision 000: a `while (srclen >= 3)` loop over 3-byte
groups, then a `switch` on the 2- or 1-byte remainder.  `61` is `'='`. -/
def base64_encode000 (v : Variant) (padding : Bool) : List Nat → List Nat
  | b0 :: b1 :: b2 :: rest =>
      let ac := (b0 <<< 16) ||| (b1 <<< 8) ||| b2
      (base64_tables v).getD (ac >>> 18) 0 ::
      (base64_tables v).getD ((ac >>> 12) &&& 63) 0 ::
      (base64_tables v).getD ((ac >>> 6) &&& 63) 0 ::
      (base64_tables v).getD (ac &&& 63) 0 ::
      base64_encode000 v padding rest
  | [b0, b1] =>
      let ac := (b0 <<< 16) ||| (b1 <<< 8)
      (base64_tables v).getD (ac >>> 18) 0 ::
      (base64_tables v).getD ((ac >>> 12) &&& 63) 0 ::
      (base64_tables v).getD ((ac >>> 6) &&& 63) 0 ::
      (if padding then [61] else [])
  | [b0] =>
      let ac := b0 <<< 16
      (base64_tables v).getD (ac >>> 18) 0 ::
      (base64_tables v).getD ((ac >>> 12) &&& 63) 0 ::
      (if padding then [61, 61] else [])
  | [] => []

/-- The inner `do { bits -= 6; *cp++ = base64_table[(ac >> bits) & 0x3f]; }
while (bits >= 6)` loop of revision 001's encoder: returns the emitted
symbols and the final value of `bits`.  The loop body runs again exactly
when `bits - 6 ≥ 6`, i.e. when the entry value matches `bits + 12`; the
continued do-while from value `bits - 6` is the recursive call. -/
def encodeEmit (v : Variant) (ac : Nat) : Nat → List Nat × Nat
  | bits + 12 =>
      let r := encodeEmit v ac (bits + 6)
      ((base64_tables v).getD ((ac >>> (bits + 6)) &&& 63) 0 :: r.1, r.2)
  | bits => ([(base64_tables v).getD ((ac >>> (bits - 6)) &&& 63) 0], bits - 6)

/-- The `for (i = 0; i < srclen; i++)` loop of revision 001's encoder:
returns the emitted symbols together with the final `ac` and `bits`. -/
def encode001Go (v : Variant) (ac : Nat) (bits : Nat) :
    List Nat → List Nat × Nat × Nat
  | [] => ([], ac, bits)
  | b :: rest =>
      let ac2 := ((ac <<< 8) ||| b) % 2 ^ 32
      let e := encodeEmit v ac2 (bits + 8)
      let r := encode001Go v ac2 e.2 rest
      (e.1 ++ r.1, r.2)

/-- The `while (bits < 0) { *cp++ = '='; bits += 2; }` padding loop of
revision 001's encoder, expressed on the deficit `d = -bits`: `bits += 2`
is `d - 2`, and the loop stops once `bits ≥ 0`, i.e. `d = 0` (a final step
from `d = 1` reaches `bits = 1 ≥ 0` after one emission). -/
def padEmitGo : Nat → List Nat
  | d + 2 => 61 :: padEmitGo d
  | 1 => [61]
  | 0 => []

/-- The padding loop of revision 001's encoder on the C `int` value of
`bits` (negative or zero on entry). -/
def padEmit (b : Int) : List Nat :=
  padEmitGo (-b).toNat

/-- The code after the byte loop of revision 001's encoder: the final
partial symbol `if (bits)`, then the padding loop, applied to the loop's
result (emitted symbols, final `ac`, final `bits`). -/
def encode001Post (v : Variant) (padding : Bool) (r : List Nat × Nat × Nat) :
    List Nat :=
  let syms :=
    if r.2.2 ≠ 0 then
      r.1 ++ [(base64_tables v).getD ((r.2.1 <<< (6 - r.2.2)) &&& 63) 0]
    else r.1
  let bitsEnd : Int := if r.2.2 ≠ 0 then (r.2.2 : Int) - 6 else (r.2.2 : Int)
  if padding then syms ++ padEmit bitsEnd else syms

/-- `base64_encode` of revision 001: the byte loop, then the final partial
symbol when `bits` is nonzero, then the padding loop. -/
def base64_encode001 (v : Variant) (padding : Bool) (src : List Nat) : List Nat :=
  encode001Post v padding (encode001Go v 0 0 src)

/-- The trailing-group code of revision 000's decoder (lines following the
`while` loop): decodes a leftover of exactly 2 or 3 symbols, checking the
sign bit and the filler bits via the masks `0x800003ff` / `0x80000003`.
The emitted bytes are the C `u8` stores, hence the `% 256`. -/
def decodeTail000 (v : Variant) : List Nat → Option (List Nat)
  | [s0, s1] =>
      let val := ((rev32 v s0 <<< 12) % 2 ^ 32) ||| ((rev32 v s1 <<< 6) % 2 ^ 32)
      if val &&& 0x800003ff ≠ 0 then none
      else some [(val >>> 10) % 256]
  | [s0, s1, s2] =>
      let val0 := ((rev32 v s0 <<< 12) % 2 ^ 32) ||| ((rev32 v s1 <<< 6) % 2 ^ 32)
      let val := val0 ||| rev32 v s2
      if val &&& 0x80000003 ≠ 0 then none
      else some [(val0 >>> 10) % 256, (val >>> 2) % 256]
  | _ => none

/-- `base64_decode` of revision 000: a `while (srclen >= 4)` loop decoding
full groups; a group whose accumulated `val` is negative (some reverse-table
entry was `-1`) either fails or, when it is the final group of a padded
input ending in `'='`, drops the padding and re-enters the trailing-group
code with 2 or 3 symbols.  A leftover with `padding` set, or of exactly one
symbol, fails. -/
def base64_decode000 (v : Variant) (padding : Bool) : List Nat → Option (List Nat)
  | s0 :: s1 :: s2 :: s3 :: rest =>
      let val := ((rev32 v s0 <<< 18) % 2 ^ 32) ||| ((rev32 v s1 <<< 12) % 2 ^ 32) |||
        ((rev32 v s2 <<< 6) % 2 ^ 32) ||| rev32 v s3
      if 2 ^ 31 ≤ val then
        if padding = false ∨ rest ≠ [] ∨ s3 ≠ 61 then none
        else if s2 = 61 then decodeTail000 v [s0, s1]
        else decodeTail000 v [s0, s1, s2]
      else
        match base64_decode000 v padding rest with
        | none => none
        | some bs =>
            some (((val >>> 16) % 256) :: ((val >>> 8) % 256) :: (val % 256) :: bs)
  | [] => some []
  | [_] => none
  | [s0, s1] => if padding then none else decodeTail000 v [s0, s1]
  | [s0, s1, s2] => if padding then none else decodeTail000 v [s0, s1, s2]

/-- `base64_decode` of revision 001: one symbol at a time into a running
accumulator.  With `padding` set, `'='` only shifts the accumulator and
adjusts `bits` without emitting; any other character is looked up and
rejected on `-1`; a byte is emitted whenever 8 bits have accumulated; after
the loop the leftover `bits` low bits of `ac` must be zero. -/
def decode001Go (v : Variant) (padding : Bool) (ac : Nat) (bits : Nat) :
    List Nat → Option (List Nat)
  | [] => if ac &&& ((1 <<< bits) - 1) ≠ 0 then none else some []
  | c :: rest =>
      if padding ∧ c = 61 then
        let ac2 := (ac <<< 6) % 2 ^ 32
        let bits2 := bits + 6
        if 8 ≤ bits2 then decode001Go v padding ac2 (bits2 - 8) rest
        else decode001Go v padding ac2 bits2 rest
      else if base64_rev_maps v c = -1 then none
      else
        let ac2 := ((ac <<< 6) ||| (base64_rev_maps v c).toNat) % 2 ^ 32
        let bits2 := bits + 6
        if 8 ≤ bits2 then
          match decode001Go v padding ac2 (bits2 - 8) rest with
          | none => none
          | some bs => some (((ac2 >>> (bits2 - 8)) % 256) :: bs)
        else decode001Go v padding ac2 bits2 rest

/-- `base64_decode` of revision 001, from the initial state `ac = 0`,
`bits = 0`. -/
def base64_decode001 (v : Variant) (padding : Bool) (src : List Nat) :
    Option (List Nat) :=
  decode001Go v padding 0 0 src

example : base64_tables .std = [65, 66, 67, 68, 69, 70, 71, 72, 73, 74, 75, 76, 77,
    78, 79, 80, 81, 82, 83, 84, 85, 86, 87, 88, 89, 90, 97, 98, 99, 100, 101, 102,
    103, 104, 105, 106, 107, 108, 109, 110, 111, 112, 113, 114, 115, 116, 117, 118,
    119, 120, 121, 122, 48, 49, 50, 51, 52, 53, 54, 55, 56, 57, 43, 47] := by decide

example : base64_rev_maps .std 65 = 0 := by decide
example : base64_rev_maps .std 61 = -1 := by decide
example : rev32 .std 61 = 2 ^ 32 - 1 := by decide
example : rev32 .std 47 = 63 := by decide

example : base64_encode000 .std true [102, 111, 111] = [90, 109, 57, 118] := by decide
example : base64_encode000 .std true [102, 111] = [90, 109, 56, 61] := by decide
example : base64_encode000 .std false [102, 111] = [90, 109, 56] := by decide
example : base64_encode001 .std true [102, 111] = [90, 109, 56, 61] := by decide
example : base64_encode001 .std true [] = [] := by decide
example : base64_encode001 .std true [1] = [65, 81, 61, 61] := by decide
example : base64_encode000 .std true [1] = [65, 81, 61, 61] := by decide
example : base64_decode000 .std true [90, 109, 57, 118] = some [102, 111, 111] := by decide
example : base64_decode000 .std true [90, 109, 56, 61] = some [102, 111] := by decide
example : base64_decode000 .std true [90, 109, 57, 61] = none := by decide
example : base64_decode001 .std true [90, 109, 57, 61] = some [102, 111] := by decide
example : base64_decode001 .std true [90, 109, 56] = some [102, 111] := by decide
example : base64_decode000 .std true [90, 109, 56] = none := by decide
example : base64_decode000 .std false [65] = none := by decide
example : base64_decode001 .std false [65] = some [] := by decide
example : base64_decode001 .std false [66] = none := by decide
example : base64_decode000 .std false [47, 119] = some [255] := by decide
example : base64_decode001 .std false [47, 119] = some [255] := by decide
example : base64_decode000 .urlsafe true [43, 65, 61, 61] = none := by decide
example : base64_decode001 .urlsafe true [43, 65, 61, 61] = none := by decide

/-! ### Reverse-table characterization -/

/-- Every reverse-table entry is either the sentinel `-1` or a 6-bit value. -/
theorem rev_maps_range (v : Variant) (c : Nat) :
    base64_rev_maps v c = -1 ∨
      (0 ≤ base64_rev_maps v c ∧ base64_rev_maps v c ≤ 63) := by
  unfold base64_rev_maps
  split_ifs <;> simp <;> omega

/-- On a non-sentinel entry, the 32-bit pattern is the entry itself, a
6-bit value. -/
theorem rev32_valid (v : Variant) (c : Nat) (h : base64_rev_maps v c ≠ -1) :
    rev32 v c = (base64_rev_maps v c).toNat ∧ rev32 v c < 64 := by
  rcases rev_maps_range v c with h1 | ⟨h1, h2⟩
  · exact absurd h1 h
  · unfold rev32
    rw [Int.emod_eq_of_lt h1 (by omega)]
    exact ⟨rfl, by omega⟩

/-- On the sentinel, the 32-bit pattern is all ones. -/
theorem rev32_invalid (v : Variant) (c : Nat) (h : base64_rev_maps v c = -1) :
    rev32 v c = 2 ^ 32 - 1 := by
  unfold rev32
  rw [h]
  decide

/-- `'='` is in no alphabet: its reverse-table entry is the sentinel. -/
theorem rev_maps_61 (v : Variant) : base64_rev_maps v 61 = -1 := by
  cases v <;> decide

/-- The reverse table inverts the forward table. -/
theorem rev_maps_table (v : Variant) :
    ∀ i < 64, base64_rev_maps v ((base64_tables v).getD i 0) = (i : Int) := by
  cases v <;> decide

/-- No forward-table symbol is `'='`. -/
theorem table_ne_61 (v : Variant) : ∀ i < 64, (base64_tables v).getD i 0 ≠ 61 := by
  cases v <;> decide

/-! ### Bit-pattern lemmas for the 32-bit accumulators -/

/-- The sign-bit test on a 32-bit pattern. -/
theorem testBit31_iff (x : Nat) (hx : x < 2 ^ 32) :
    x.testBit 31 = true ↔ 2 ^ 31 ≤ x := by
  rw [Nat.testBit_to_div_mod]
  simp only [decide_eq_true_eq]
  omega

/-- Disjoint bit ranges make `|||` an addition. -/
theorem or_add (k a b : Nat) (hb : b < 2 ^ k) : (a * 2 ^ k) ||| b = a * 2 ^ k + b := by
  rw [Nat.mul_comm]
  exact (Nat.mul_add_lt_is_or hb a).symm

/-- Masking a value with no sign bit by `0x8000_0000 ||| (2^k - 1)` keeps
only the low `k` bits. -/
theorem and_sign_mask (x k : Nat) (hx : x < 2 ^ 31) :
    x &&& (2 ^ 31 ||| (2 ^ k - 1)) = x % 2 ^ k := by
  rw [Nat.and_or_distrib_left]
  have h1 : x &&& 2 ^ 31 = 0 := by
    apply Nat.eq_of_testBit_eq
    intro i
    simp only [Nat.testBit_and, Nat.testBit_two_pow, Nat.zero_testBit]
    by_cases hi : (31 : Nat) = i
    · subst hi
      simp [Nat.testBit_lt_two_pow hx]
    · simp [hi]
  rw [h1, Nat.zero_or, Nat.and_pow_two_sub_one_eq_mod]

/-- A set bit rules out zero. -/
theorem ne_zero_of_testBit (x i : Nat) (h : x.testBit i = true) : x ≠ 0 := by
  intro h0
  rw [h0, Nat.zero_testBit] at h
  exact Bool.false_ne_true h

example : (0x800003ff : Nat) = 2 ^ 31 ||| (2 ^ 10 - 1) := by decide
example : (0x80000003 : Nat) = 2 ^ 31 ||| (2 ^ 2 - 1) := by decide
example : ((2 ^ 32 - 1 : Nat) <<< 18) % 2 ^ 32 = 2 ^ 32 - 2 ^ 18 := by decide

/-- The 32-bit pattern of any reverse-table entry fits 32 bits. -/
theorem rev32_lt (v : Variant) (c : Nat) : rev32 v c < 2 ^ 32 := by
  rcases rev_maps_range v c with h | ⟨h1, h2⟩
  · rw [rev32_invalid v c h]; decide
  · have := (rev32_valid v c (by omega)).2
    omega

/-- When all four symbols of a group are in the alphabet, the decoder's
accumulated `val` is the 24-bit concatenation of their 6-bit values. -/
theorem group_val_valid (v : Variant) (s0 s1 s2 s3 : Nat)
    (h0 : base64_rev_maps v s0 ≠ -1) (h1 : base64_rev_maps v s1 ≠ -1)
    (h2 : base64_rev_maps v s2 ≠ -1) (h3 : base64_rev_maps v s3 ≠ -1) :
    ((rev32 v s0 <<< 18) % 2 ^ 32 ||| (rev32 v s1 <<< 12) % 2 ^ 32 |||
        (rev32 v s2 <<< 6) % 2 ^ 32 ||| rev32 v s3) =
      (base64_rev_maps v s0).toNat * 2 ^ 18 + (base64_rev_maps v s1).toNat * 2 ^ 12 +
        (base64_rev_maps v s2).toNat * 2 ^ 6 + (base64_rev_maps v s3).toNat := by
  obtain ⟨e0, l0⟩ := rev32_valid v s0 h0
  obtain ⟨e1, l1⟩ := rev32_valid v s1 h1
  obtain ⟨e2, l2⟩ := rev32_valid v s2 h2
  obtain ⟨e3, l3⟩ := rev32_valid v s3 h3
  rw [e0] at l0; rw [e1] at l1; rw [e2] at l2; rw [e3] at l3
  rw [e0, e1, e2, e3, Nat.shiftLeft_eq, Nat.shiftLeft_eq, Nat.shiftLeft_eq]
  rw [Nat.mod_eq_of_lt (by omega), Nat.mod_eq_of_lt (by omega),
    Nat.mod_eq_of_lt (by omega)]
  rw [or_add 18 _ _ (by omega)]
  rw [show (base64_rev_maps v s0).toNat * 2 ^ 18 + (base64_rev_maps v s1).toNat * 2 ^ 12
      = ((base64_rev_maps v s0).toNat * 2 ^ 6 + (base64_rev_maps v s1).toNat) * 2 ^ 12
    by ring]
  rw [or_add 12 _ _ (by omega)]
  rw [show ((base64_rev_maps v s0).toNat * 2 ^ 6 + (base64_rev_maps v s1).toNat) * 2 ^ 12
        + (base64_rev_maps v s2).toNat * 2 ^ 6
      = (((base64_rev_maps v s0).toNat * 2 ^ 6 + (base64_rev_maps v s1).toNat) * 2 ^ 6
        + (base64_rev_maps v s2).toNat) * 2 ^ 6
    by ring]
  rw [or_add 6 _ _ (by omega)]

/-- When some symbol of a group is not in the alphabet, the sign bit of
`val` is set: the group is seen as negative. -/
theorem group_val_invalid (v : Variant) (s0 s1 s2 s3 : Nat)
    (h : base64_rev_maps v s0 = -1 ∨ base64_rev_maps v s1 = -1 ∨
      base64_rev_maps v s2 = -1 ∨ base64_rev_maps v s3 = -1) :
    2 ^ 31 ≤ ((rev32 v s0 <<< 18) % 2 ^ 32 ||| (rev32 v s1 <<< 12) % 2 ^ 32 |||
      (rev32 v s2 <<< 6) % 2 ^ 32 ||| rev32 v s3) := by
  have hlt : ((rev32 v s0 <<< 18) % 2 ^ 32 ||| (rev32 v s1 <<< 12) % 2 ^ 32 |||
      (rev32 v s2 <<< 6) % 2 ^ 32 ||| rev32 v s3) < 2 ^ 32 :=
    Nat.or_lt_two_pow
      (Nat.or_lt_two_pow
        (Nat.or_lt_two_pow (Nat.mod_lt _ (by decide)) (Nat.mod_lt _ (by decide)))
        (Nat.mod_lt _ (by decide)))
      (rev32_lt v s3)
  rw [← testBit31_iff _ hlt]
  simp only [Nat.testBit_or, Bool.or_eq_true]
  rcases h with h | h | h | h
  · rw [rev32_invalid v s0 h]
    exact Or.inl (Or.inl (Or.inl (by decide)))
  · rw [rev32_invalid v s1 h]
    exact Or.inl (Or.inl (Or.inr (by decide)))
  · rw [rev32_invalid v s2 h]
    exact Or.inl (Or.inr (by decide))
  · rw [rev32_invalid v s3 h]
    exact Or.inr (by decide)

/-! ### Stepping lemmas for revision 000's decoder -/

/-- A full group of four alphabet symbols decodes to three bytes and the
loop continues on the rest. -/
theorem decode000_cons4_valid (v : Variant) (p : Bool) (s0 s1 s2 s3 : Nat)
    (rest : List Nat) (j0 j1 j2 j3 : Nat)
    (h0 : base64_rev_maps v s0 = (j0 : Int)) (h1 : base64_rev_maps v s1 = (j1 : Int))
    (h2 : base64_rev_maps v s2 = (j2 : Int)) (h3 : base64_rev_maps v s3 = (j3 : Int)) :
    base64_decode000 v p (s0 :: s1 :: s2 :: s3 :: rest) =
      (base64_decode000 v p rest).map
        (fun bs => (4 * j0 + j1 / 16) :: (j1 % 16 * 16 + j2 / 4) ::
          (j2 % 4 * 64 + j3) :: bs) := by
  have l0 : j0 < 64 := by
    rcases rev_maps_range v s0 with h | ⟨ha, hb⟩ <;> rw [h0] at * <;> omega
  have l1 : j1 < 64 := by
    rcases rev_maps_range v s1 with h | ⟨ha, hb⟩ <;> rw [h1] at * <;> omega
  have l2 : j2 < 64 := by
    rcases rev_maps_range v s2 with h | ⟨ha, hb⟩ <;> rw [h2] at * <;> omega
  have l3 : j3 < 64 := by
    rcases rev_maps_range v s3 with h | ⟨ha, hb⟩ <;> rw [h3] at * <;> omega
  have hv := group_val_valid v s0 s1 s2 s3 (by rw [h0]; omega) (by rw [h1]; omega)
    (by rw [h2]; omega) (by rw [h3]; omega)
  rw [h0, h1, h2, h3] at hv
  simp only [Int.toNat_ofNat] at hv
  simp only [base64_decode000]
  rw [hv, if_neg (by omega)]
  cases hrest : base64_decode000 v p rest with
  | none => simp
  | some bs =>
      simp only [Option.map_some]
      have e0 : (j0 * 2 ^ 18 + j1 * 2 ^ 12 + j2 * 2 ^ 6 + j3) >>> 16 % 256
          = 4 * j0 + j1 / 16 := by
        rw [Nat.shiftRight_eq_div_pow]; omega
      have e1 : (j0 * 2 ^ 18 + j1 * 2 ^ 12 + j2 * 2 ^ 6 + j3) >>> 8 % 256
          = j1 % 16 * 16 + j2 / 4 := by
        rw [Nat.shiftRight_eq_div_pow]; omega
      have e2 : (j0 * 2 ^ 18 + j1 * 2 ^ 12 + j2 * 2 ^ 6 + j3) % 256
          = j2 % 4 * 64 + j3 := by omega
      rw [e0, e1, e2]
      rfl

/-- A group containing a non-alphabet character (including `'='`) makes
`val` negative: the decoder fails unless this is the final group of a
padded input ending in `'='`, in which case the trailing-group code takes
over with the padding stripped. -/
theorem decode000_cons4_invalid (v : Variant) (p : Bool) (s0 s1 s2 s3 : Nat)
    (rest : List Nat)
    (h : base64_rev_maps v s0 = -1 ∨ base64_rev_maps v s1 = -1 ∨
      base64_rev_maps v s2 = -1 ∨ base64_rev_maps v s3 = -1) :
    base64_decode000 v p (s0 :: s1 :: s2 :: s3 :: rest) =
      if p = false ∨ rest ≠ [] ∨ s3 ≠ 61 then none
      else if s2 = 61 then decodeTail000 v [s0, s1]
      else decodeTail000 v [s0, s1, s2] := by
  simp only [base64_decode000]
  rw [if_pos (group_val_invalid v s0 s1 s2 s3 h)]

/-- The 2-symbol trailing group: succeeds exactly when both symbols are in
the alphabet and the four filler bits of the second symbol are zero. -/
theorem tail2_valid (v : Variant) (s0 s1 : Nat) (j0 j1 : Nat)
    (h0 : base64_rev_maps v s0 = (j0 : Int))
    (h1 : base64_rev_maps v s1 = (j1 : Int)) :
    decodeTail000 v [s0, s1] =
      if j1 % 16 = 0 then some [4 * j0 + j1 / 16] else none := by
  have l0 : j0 < 64 := by
    rcases rev_maps_range v s0 with h | ⟨ha, hb⟩ <;> rw [h0] at * <;> omega
  have l1 : j1 < 64 := by
    rcases rev_maps_range v s1 with h | ⟨ha, hb⟩ <;> rw [h1] at * <;> omega
  have e0 := (rev32_valid v s0 (by rw [h0]; omega)).1
  have e1 := (rev32_valid v s1 (by rw [h1]; omega)).1
  rw [h0] at e0; rw [h1] at e1
  simp only [Int.toNat_ofNat] at e0 e1
  simp only [decodeTail000]
  rw [e0, e1, Nat.shiftLeft_eq, Nat.shiftLeft_eq,
    Nat.mod_eq_of_lt (by omega), Nat.mod_eq_of_lt (by omega),
    or_add 12 _ _ (by omega)]
  have hm : (j0 * 2 ^ 12 + j1 * 2 ^ 6) &&& 0x800003ff = j1 % 16 * 64 := by
    rw [show (0x800003ff : Nat) = 2 ^ 31 ||| (2 ^ 10 - 1) by decide,
      and_sign_mask _ 10 (by omega)]
    omega
  rw [hm]
  have hb : (j0 * 2 ^ 12 + j1 * 2 ^ 6) >>> 10 % 256 = 4 * j0 + j1 / 16 := by
    rw [Nat.shiftRight_eq_div_pow]; omega
  by_cases hj : j1 % 16 = 0
  · rw [if_neg (by omega), if_pos hj, hb]
  · rw [if_pos (by omega), if_neg hj]

/-- The 2-symbol trailing group fails when either symbol is not in the
alphabet. -/
theorem tail2_invalid (v : Variant) (s0 s1 : Nat)
    (h : base64_rev_maps v s0 = -1 ∨ base64_rev_maps v s1 = -1) :
    decodeTail000 v [s0, s1] = none := by
  simp only [decodeTail000]
  have hbit : ((rev32 v s0 <<< 12 % 2 ^ 32 ||| rev32 v s1 <<< 6 % 2 ^ 32)).testBit 31
      = true := by
    simp only [Nat.testBit_or, Bool.or_eq_true]
    rcases h with h | h
    · rw [rev32_invalid v s0 h]
      exact Or.inl (by decide)
    · rw [rev32_invalid v s1 h]
      exact Or.inr (by decide)
  rw [if_pos]
  apply ne_zero_of_testBit _ 31
  simp only [Nat.testBit_and, hbit, Bool.true_and]
  decide

/-- The 3-symbol trailing group: succeeds exactly when all three symbols
are in the alphabet and the two filler bits of the third symbol are zero. -/
theorem tail3_valid (v : Variant) (s0 s1 s2 : Nat) (j0 j1 j2 : Nat)
    (h0 : base64_rev_maps v s0 = (j0 : Int))
    (h1 : base64_rev_maps v s1 = (j1 : Int))
    (h2 : base64_rev_maps v s2 = (j2 : Int)) :
    decodeTail000 v [s0, s1, s2] =
      if j2 % 4 = 0 then some [4 * j0 + j1 / 16, j1 % 16 * 16 + j2 / 4] else none := by
  have l0 : j0 < 64 := by
    rcases rev_maps_range v s0 with h | ⟨ha, hb⟩ <;> rw [h0] at * <;> omega
  have l1 : j1 < 64 := by
    rcases rev_maps_range v s1 with h | ⟨ha, hb⟩ <;> rw [h1] at * <;> omega
  have l2 : j2 < 64 := by
    rcases rev_maps_range v s2 with h | ⟨ha, hb⟩ <;> rw [h2] at * <;> omega
  have e0 := (rev32_valid v s0 (by rw [h0]; omega)).1
  have e1 := (rev32_valid v s1 (by rw [h1]; omega)).1
  have e2 := (rev32_valid v s2 (by rw [h2]; omega)).1
  rw [h0] at e0; rw [h1] at e1; rw [h2] at e2
  simp only [Int.toNat_ofNat] at e0 e1 e2
  simp only [decodeTail000]
  rw [e0, e1, e2, Nat.shiftLeft_eq, Nat.shiftLeft_eq,
    Nat.mod_eq_of_lt (by omega), Nat.mod_eq_of_lt (by omega),
    or_add 12 _ _ (by omega),
    show j0 * 2 ^ 12 + j1 * 2 ^ 6 = (j0 * 2 ^ 6 + j1) * 2 ^ 6 by ring,
    or_add 6 _ _ (by omega)]
  have hm : ((j0 * 2 ^ 6 + j1) * 2 ^ 6 + j2) &&& 0x80000003 = j2 % 4 := by
    rw [show (0x80000003 : Nat) = 2 ^ 31 ||| (2 ^ 2 - 1) by decide,
      and_sign_mask _ 2 (by omega)]
    omega
  rw [hm]
  have hb0 : ((j0 * 2 ^ 6 + j1) * 2 ^ 6) >>> 10 % 256 = 4 * j0 + j1 / 16 := by
    rw [Nat.shiftRight_eq_div_pow]; omega
  have hb1 : ((j0 * 2 ^ 6 + j1) * 2 ^ 6 + j2) >>> 2 % 256 = j1 % 16 * 16 + j2 / 4 := by
    rw [Nat.shiftRight_eq_div_pow]; omega
  by_cases hj : j2 % 4 = 0
  · rw [if_neg (by omega), if_pos hj, hb0, hb1]
  · rw [if_pos (by omega), if_neg hj]

/-- The 3-symbol trailing group fails when any symbol is not in the
alphabet. -/
theorem tail3_invalid (v : Variant) (s0 s1 s2 : Nat)
    (h : base64_rev_maps v s0 = -1 ∨ base64_rev_maps v s1 = -1 ∨
      base64_rev_maps v s2 = -1) :
    decodeTail000 v [s0, s1, s2] = none := by
  simp only [decodeTail000]
  have hbit : ((rev32 v s0 <<< 12 % 2 ^ 32 ||| rev32 v s1 <<< 6 % 2 ^ 32 |||
      rev32 v s2)).testBit 31 = true := by
    simp only [Nat.testBit_or, Bool.or_eq_true]
    rcases h with h | h | h
    · rw [rev32_invalid v s0 h]
      exact Or.inl (Or.inl (by decide))
    · rw [rev32_invalid v s1 h]
      exact Or.inl (Or.inr (by decide))
    · rw [rev32_invalid v s2 h]
      exact Or.inr (by decide)
  rw [if_pos]
  apply ne_zero_of_testBit _ 31
  simp only [Nat.testBit_and, hbit, Bool.true_and]
  decide

/-! ### Stepping lemmas for revision 001's decoder -/

/-- An alphabet symbol is never `'='`. -/
theorem valid_ne_61 (v : Variant) (c j : Nat)
    (hc : base64_rev_maps v c = (j : Int)) : c ≠ 61 := by
  intro h
  rw [h, rev_maps_61] at hc
  omega

/-- One step of revision 001's decoder on an alphabet symbol: shift the
6-bit value in and emit a byte once 8 bits have accumulated. -/
theorem decode001_cons_valid (v : Variant) (p : Bool) (ac bits c : Nat)
    (rest : List Nat) (j : Nat) (hc : base64_rev_maps v c = (j : Int)) :
    decode001Go v p ac bits (c :: rest) =
      if 8 ≤ bits + 6 then
        match decode001Go v p (((ac <<< 6) ||| j) % 2 ^ 32) (bits + 6 - 8) rest with
        | none => none
        | some bs =>
            some ((((ac <<< 6) ||| j) % 2 ^ 32) >>> (bits + 6 - 8) % 256 :: bs)
      else decode001Go v p (((ac <<< 6) ||| j) % 2 ^ 32) (bits + 6) rest := by
  have hne : c ≠ 61 := valid_ne_61 v c j hc
  simp only [decode001Go, hc]
  rw [if_neg (fun h => hne h.2), if_neg (by omega)]
  simp only [Int.toNat_ofNat]

/-- One step of revision 001's decoder on `'='` with padding enabled: the
accumulator is shifted with no value or byte emitted. -/
theorem decode001_cons_eq (v : Variant) (ac bits : Nat) (rest : List Nat) :
    decode001Go v true ac bits (61 :: rest) =
      if 8 ≤ bits + 6 then decode001Go v true ((ac <<< 6) % 2 ^ 32) (bits + 6 - 8) rest
      else decode001Go v true ((ac <<< 6) % 2 ^ 32) (bits + 6) rest := by
  simp only [decode001Go]
  rw [if_pos (by simp)]

/-- The final check of revision 001's decoder: the leftover `bits` low
bits of the accumulator must be zero. -/
theorem decode001_nil (v : Variant) (p : Bool) (ac bits : Nat) :
    decode001Go v p ac bits [] =
      if ac % 2 ^ bits ≠ 0 then none else some [] := by
  simp only [decode001Go]
  rw [Nat.shiftLeft_eq, one_mul, Nat.and_pow_two_sub_one_eq_mod]

/-- Four alphabet symbols starting from a byte-aligned state emit exactly
the three bytes of the group, returning to a byte-aligned state. -/
theorem decode001_four_valid (v : Variant) (p : Bool) (ac : Nat)
    (s0 s1 s2 s3 : Nat) (rest : List Nat) (j0 j1 j2 j3 a1 a2 a3 a4 : Nat)
    (h0 : base64_rev_maps v s0 = (j0 : Int)) (h1 : base64_rev_maps v s1 = (j1 : Int))
    (h2 : base64_rev_maps v s2 = (j2 : Int)) (h3 : base64_rev_maps v s3 = (j3 : Int))
    (ha1 : a1 = ((ac <<< 6) ||| j0) % 2 ^ 32) (ha2 : a2 = ((a1 <<< 6) ||| j1) % 2 ^ 32)
    (ha3 : a3 = ((a2 <<< 6) ||| j2) % 2 ^ 32) (ha4 : a4 = ((a3 <<< 6) ||| j3) % 2 ^ 32) :
    decode001Go v p ac 0 (s0 :: s1 :: s2 :: s3 :: rest) =
      (decode001Go v p a4 0 rest).map
        (fun bs => (4 * j0 + j1 / 16) :: (j1 % 16 * 16 + j2 / 4) ::
          (j2 % 4 * 64 + j3) :: bs) := by
  have l0 : j0 < 64 := by
    rcases rev_maps_range v s0 with h | ⟨ha, hb⟩ <;> rw [h0] at * <;> omega
  have l1 : j1 < 64 := by
    rcases rev_maps_range v s1 with h | ⟨ha, hb⟩ <;> rw [h1] at * <;> omega
  have l2 : j2 < 64 := by
    rcases rev_maps_range v s2 with h | ⟨ha, hb⟩ <;> rw [h2] at * <;> omega
  have l3 : j3 < 64 := by
    rcases rev_maps_range v s3 with h | ⟨ha, hb⟩ <;> rw [h3] at * <;> omega
  have ha1' : a1 = (ac * 2 ^ 6 + j0) % 2 ^ 32 := by
    rw [ha1, Nat.shiftLeft_eq, or_add 6 _ _ (by omega)]
  have ha2' : a2 = (a1 * 2 ^ 6 + j1) % 2 ^ 32 := by
    rw [ha2, Nat.shiftLeft_eq, or_add 6 _ _ (by omega)]
  have ha3' : a3 = (a2 * 2 ^ 6 + j2) % 2 ^ 32 := by
    rw [ha3, Nat.shiftLeft_eq, or_add 6 _ _ (by omega)]
  have ha4' : a4 = (a3 * 2 ^ 6 + j3) % 2 ^ 32 := by
    rw [ha4, Nat.shiftLeft_eq, or_add 6 _ _ (by omega)]
  rw [decode001_cons_valid v p ac 0 s0 _ j0 h0, if_neg (by omega), ← ha1]
  rw [decode001_cons_valid v p a1 6 s1 _ j1 h1, if_pos (by omega), ← ha2]
  rw [decode001_cons_valid v p a2 (6 + 6 - 8) s2 _ j2 h2, if_pos (by omega), ← ha3]
  rw [decode001_cons_valid v p a3 (6 + 6 - 8 + 6 - 8) s3 _ j3 h3, if_pos (by omega),
    ← ha4]
  have e0 : a2 >>> (6 + 6 - 8) % 256 = 4 * j0 + j1 / 16 := by
    rw [Nat.shiftRight_eq_div_pow]
    omega
  have e1 : a3 >>> (6 + 6 - 8 + 6 - 8) % 256 = j1 % 16 * 16 + j2 / 4 := by
    rw [Nat.shiftRight_eq_div_pow]
    omega
  have e2 : a4 >>> (6 + 6 - 8 + 6 - 8 + 6 - 8) % 256 = j2 % 4 * 64 + j3 := by
    rw [Nat.shiftRight_eq_div_pow]
    omega
  rw [e0, e1, e2, show (6 + 6 - 8 + 6 - 8 + 6 - 8 : Nat) = 0 by omega]
  cases hrest : decode001Go v p a4 0 rest with
  | none => rfl
  | some bs => rfl

/-! ### Invalid characters force failure -/

/-- Induction principle following the 4-symbol grouping of revision 000's
decoder. -/
theorem list4_induction {P : List Nat → Prop}
    (h4 : ∀ s0 s1 s2 s3 rest, P rest → P (s0 :: s1 :: s2 :: s3 :: rest))
    (h0 : P []) (h1 : ∀ a, P [a]) (h2 : ∀ a b, P [a, b])
    (h3 : ∀ a b c, P [a, b, c]) : ∀ s, P s
  | s0 :: s1 :: s2 :: s3 :: rest =>
      h4 s0 s1 s2 s3 rest (list4_induction h4 h0 h1 h2 h3 rest)
  | [] => h0
  | [a] => h1 a
  | [a, b] => h2 a b
  | [a, b, c] => h3 a b c

/-- A non-sentinel reverse-table entry is the cast of its `toNat`. -/
theorem rev_maps_valid_form (v : Variant) (c : Nat)
    (h : base64_rev_maps v c ≠ -1) :
    base64_rev_maps v c = ((base64_rev_maps v c).toNat : Int) := by
  rcases rev_maps_range v c with h1 | ⟨h1, h2⟩
  · exact absurd h1 h
  · omega

/-- Revision 001's decoder fails on any input containing a character whose
reverse-table entry is the sentinel, unless that character is a `'='`
consumed by the padding branch. -/
theorem decode001_invalid (v : Variant) (p : Bool) (c : Nat)
    (hc : base64_rev_maps v c = -1) (hp : p = false ∨ c ≠ 61) :
    ∀ (s : List Nat) (ac bits : Nat), c ∈ s → decode001Go v p ac bits s = none := by
  intro s
  induction s with
  | nil =>
      intro ac bits h
      simp at h
  | cons a rest ih =>
      intro ac bits hmem
      simp only [decode001Go]
      by_cases hpa : p = true ∧ a = 61
      · rw [if_pos hpa]
        have hcr : c ∈ rest := by
          rcases List.mem_cons.mp hmem with h | h
          · exfalso
            rcases hp with hp | hp
            · rw [hp] at hpa
              exact Bool.false_ne_true hpa.1
            · exact hp (h.trans hpa.2)
          · exact h
        split <;> exact ih _ _ hcr
      · rw [if_neg hpa]
        by_cases hra : base64_rev_maps v a = -1
        · rw [if_pos hra]
        · rw [if_neg hra]
          have hcr : c ∈ rest := by
            rcases List.mem_cons.mp hmem with h | h
            · exact absurd (h ▸ hc) hra
            · exact h
          split
          · rw [ih _ _ hcr]
          · exact ih _ _ hcr

/-- Revision 000's decoder fails on any input containing a character whose
reverse-table entry is the sentinel, other than a `'='` with padding
enabled. -/
theorem decode000_invalid (v : Variant) (p : Bool) (c : Nat)
    (hc : base64_rev_maps v c = -1) (hp : p = false ∨ c ≠ 61) :
    ∀ s : List Nat, c ∈ s → base64_decode000 v p s = none := by
  apply list4_induction
  · intro s0 s1 s2 s3 rest ih hmem
    by_cases hall : base64_rev_maps v s0 ≠ -1 ∧ base64_rev_maps v s1 ≠ -1 ∧
        base64_rev_maps v s2 ≠ -1 ∧ base64_rev_maps v s3 ≠ -1
    · obtain ⟨g0, g1, g2, g3⟩ := hall
      have hcr : c ∈ rest := by
        simp only [List.mem_cons] at hmem
        rcases hmem with h | h | h | h | h
        · exact absurd (h ▸ hc) g0
        · exact absurd (h ▸ hc) g1
        · exact absurd (h ▸ hc) g2
        · exact absurd (h ▸ hc) g3
        · exact h
      rw [decode000_cons4_valid v p s0 s1 s2 s3 rest _ _ _ _
        (rev_maps_valid_form v s0 g0) (rev_maps_valid_form v s1 g1)
        (rev_maps_valid_form v s2 g2) (rev_maps_valid_form v s3 g3)]
      rw [ih hcr]
      rfl
    · have hinv : base64_rev_maps v s0 = -1 ∨ base64_rev_maps v s1 = -1 ∨
          base64_rev_maps v s2 = -1 ∨ base64_rev_maps v s3 = -1 := by
        tauto
      rw [decode000_cons4_invalid v p s0 s1 s2 s3 rest hinv]
      by_cases hcond : p = false ∨ rest ≠ [] ∨ s3 ≠ 61
      · rw [if_pos hcond]
      · rw [if_neg hcond]
        push_neg at hcond
        obtain ⟨hpt, hrest, hs3⟩ := hcond
        have hc61 : c ≠ 61 := by
          rcases hp with h | h
          · rw [h] at hpt
            exact absurd hpt (by simp)
          · exact h
        have hmem3 : c = s0 ∨ c = s1 ∨ c = s2 := by
          subst hrest
          simp only [List.mem_cons, List.not_mem_nil, or_false] at hmem
          rcases hmem with h | h | h | h
          · exact Or.inl h
          · exact Or.inr (Or.inl h)
          · exact Or.inr (Or.inr h)
          · exact absurd (h.trans hs3) hc61
        by_cases hs2 : s2 = 61
        · rw [if_pos hs2]
          apply tail2_invalid
          rcases hmem3 with h | h | h
          · exact Or.inl (h ▸ hc)
          · exact Or.inr (h ▸ hc)
          · exact absurd (h.trans hs2) hc61
        · rw [if_neg hs2]
          apply tail3_invalid
          rcases hmem3 with h | h | h
          · exact Or.inl (h ▸ hc)
          · exact Or.inr (Or.inl (h ▸ hc))
          · exact Or.inr (Or.inr (h ▸ hc))
  · intro h
    simp at h
  · intro a hmem
    rfl
  · intro a b hmem
    simp only [base64_decode000]
    by_cases hpt : p = true
    · subst hpt
      rfl
    · have hpf : p = false := by
        cases p
        · rfl
        · exact absurd rfl hpt
      subst hpf
      simp only [Bool.false_eq_true, if_false]
      apply tail2_invalid
      simp only [List.mem_cons, List.not_mem_nil, or_false] at hmem
      rcases hmem with h | h
      · exact Or.inl (h ▸ hc)
      · exact Or.inr (h ▸ hc)
  · intro a b d hmem
    simp only [base64_decode000]
    by_cases hpt : p = true
    · subst hpt
      rfl
    · have hpf : p = false := by
        cases p
        · rfl
        · exact absurd rfl hpt
      subst hpf
      simp only [Bool.false_eq_true, if_false]
      apply tail3_invalid
      simp only [List.mem_cons, List.not_mem_nil, or_false] at hmem
      rcases hmem with h | h | h
      · exact Or.inl (h ▸ hc)
      · exact Or.inr (Or.inl (h ▸ hc))
      · exact Or.inr (Or.inr (h ▸ hc))

/-! ### Tail behaviour of revision 001's decoder -/

/-- A final 2-symbol tail from a byte-aligned state: one byte, with the
four filler bits checked at the end of the loop. -/
theorem decode001_tail2 (v : Variant) (p : Bool) (ac : Nat) (s0 s1 : Nat)
    (j0 j1 a1 a2 : Nat)
    (h0 : base64_rev_maps v s0 = (j0 : Int)) (h1 : base64_rev_maps v s1 = (j1 : Int))
    (ha1 : a1 = ((ac <<< 6) ||| j0) % 2 ^ 32)
    (ha2 : a2 = ((a1 <<< 6) ||| j1) % 2 ^ 32) :
    decode001Go v p ac 0 [s0, s1] =
      if j1 % 16 = 0 then some [4 * j0 + j1 / 16] else none := by
  have l0 : j0 < 64 := by
    rcases rev_maps_range v s0 with h | ⟨ha, hb⟩ <;> rw [h0] at * <;> omega
  have l1 : j1 < 64 := by
    rcases rev_maps_range v s1 with h | ⟨ha, hb⟩ <;> rw [h1] at * <;> omega
  have ha1' : a1 = (ac * 2 ^ 6 + j0) % 2 ^ 32 := by
    rw [ha1, Nat.shiftLeft_eq, or_add 6 _ _ (by omega)]
  have ha2' : a2 = (a1 * 2 ^ 6 + j1) % 2 ^ 32 := by
    rw [ha2, Nat.shiftLeft_eq, or_add 6 _ _ (by omega)]
  rw [decode001_cons_valid v p ac 0 s0 _ j0 h0, if_neg (by omega), ← ha1]
  rw [decode001_cons_valid v p a1 6 s1 _ j1 h1, if_pos (by omega), ← ha2]
  rw [decode001_nil]
  rw [show (6 + 6 - 8 : Nat) = 4 by norm_num]
  have hm : a2 % 2 ^ 4 = j1 % 16 := by omega
  by_cases hj : j1 % 16 = 0
  · rw [if_neg (by omega), if_pos hj]
    have e0 : a2 >>> 4 % 256 = 4 * j0 + j1 / 16 := by
      rw [Nat.shiftRight_eq_div_pow]
      omega
    rw [e0]
  · rw [if_pos (by omega), if_neg hj]

/-- A final 3-symbol tail from a byte-aligned state: two bytes, with the
two filler bits checked at the end of the loop. -/
theorem decode001_tail3 (v : Variant) (p : Bool) (ac : Nat) (s0 s1 s2 : Nat)
    (j0 j1 j2 a1 a2 a3 : Nat)
    (h0 : base64_rev_maps v s0 = (j0 : Int)) (h1 : base64_rev_maps v s1 = (j1 : Int))
    (h2 : base64_rev_maps v s2 = (j2 : Int))
    (ha1 : a1 = ((ac <<< 6) ||| j0) % 2 ^ 32)
    (ha2 : a2 = ((a1 <<< 6) ||| j1) % 2 ^ 32)
    (ha3 : a3 = ((a2 <<< 6) ||| j2) % 2 ^ 32) :
    decode001Go v p ac 0 [s0, s1, s2] =
      if j2 % 4 = 0 then some [4 * j0 + j1 / 16, j1 % 16 * 16 + j2 / 4] else none := by
  have l0 : j0 < 64 := by
    rcases rev_maps_range v s0 with h | ⟨ha, hb⟩ <;> rw [h0] at * <;> omega
  have l1 : j1 < 64 := by
    rcases rev_maps_range v s1 with h | ⟨ha, hb⟩ <;> rw [h1] at * <;> omega
  have l2 : j2 < 64 := by
    rcases rev_maps_range v s2 with h | ⟨ha, hb⟩ <;> rw [h2] at * <;> omega
  have ha1' : a1 = (ac * 2 ^ 6 + j0) % 2 ^ 32 := by
    rw [ha1, Nat.shiftLeft_eq, or_add 6 _ _ (by omega)]
  have ha2' : a2 = (a1 * 2 ^ 6 + j1) % 2 ^ 32 := by
    rw [ha2, Nat.shiftLeft_eq, or_add 6 _ _ (by omega)]
  have ha3' : a3 = (a2 * 2 ^ 6 + j2) % 2 ^ 32 := by
    rw [ha3, Nat.shiftLeft_eq, or_add 6 _ _ (by omega)]
  rw [decode001_cons_valid v p ac 0 s0 _ j0 h0, if_neg (by omega), ← ha1]
  rw [decode001_cons_valid v p a1 6 s1 _ j1 h1, if_pos (by omega), ← ha2]
  rw [show (6 + 6 - 8 : Nat) = 4 by norm_num]
  rw [decode001_cons_valid v p a2 4 s2 _ j2 h2, if_pos (by omega), ← ha3]
  rw [show (4 + 6 - 8 : Nat) = 2 by norm_num]
  rw [decode001_nil]
  have hm : a3 % 2 ^ 2 = j2 % 4 := by omega
  by_cases hj : j2 % 4 = 0
  · rw [if_neg (by omega), if_pos hj]
    have e0 : a2 >>> 4 % 256 = 4 * j0 + j1 / 16 := by
      rw [Nat.shiftRight_eq_div_pow]
      omega
    have e1 : a3 >>> 2 % 256 = j1 % 16 * 16 + j2 / 4 := by
      rw [Nat.shiftRight_eq_div_pow]
      omega
    rw [e0, e1]
  · rw [if_pos (by omega), if_neg hj]

/-- A padded 2-symbol final group `s0 s1 = =`: one byte, and the filler
bits of `s1` are never checked (the `'='` steps reset `bits` to zero before
the final check). -/
theorem decode001_tail2_pad (v : Variant) (ac : Nat) (s0 s1 : Nat)
    (j0 j1 a1 a2 : Nat)
    (h0 : base64_rev_maps v s0 = (j0 : Int)) (h1 : base64_rev_maps v s1 = (j1 : Int))
    (ha1 : a1 = ((ac <<< 6) ||| j0) % 2 ^ 32)
    (ha2 : a2 = ((a1 <<< 6) ||| j1) % 2 ^ 32) :
    decode001Go v true ac 0 [s0, s1, 61, 61] = some [4 * j0 + j1 / 16] := by
  have l0 : j0 < 64 := by
    rcases rev_maps_range v s0 with h | ⟨ha, hb⟩ <;> rw [h0] at * <;> omega
  have l1 : j1 < 64 := by
    rcases rev_maps_range v s1 with h | ⟨ha, hb⟩ <;> rw [h1] at * <;> omega
  have ha1' : a1 = (ac * 2 ^ 6 + j0) % 2 ^ 32 := by
    rw [ha1, Nat.shiftLeft_eq, or_add 6 _ _ (by omega)]
  have ha2' : a2 = (a1 * 2 ^ 6 + j1) % 2 ^ 32 := by
    rw [ha2, Nat.shiftLeft_eq, or_add 6 _ _ (by omega)]
  rw [decode001_cons_valid v true ac 0 s0 _ j0 h0, if_neg (by omega), ← ha1]
  rw [decode001_cons_valid v true a1 6 s1 _ j1 h1, if_pos (by omega), ← ha2]
  rw [show (6 + 6 - 8 : Nat) = 4 by norm_num]
  rw [decode001_cons_eq, if_pos (by omega)]
  rw [show (4 + 6 - 8 : Nat) = 2 by norm_num]
  rw [decode001_cons_eq, if_pos (by omega)]
  rw [show (2 + 6 - 8 : Nat) = 0 by norm_num]
  rw [decode001_nil, Nat.pow_zero, Nat.mod_one, if_neg (by omega)]
  have e0 : a2 >>> 4 % 256 = 4 * j0 + j1 / 16 := by
    rw [Nat.shiftRight_eq_div_pow]
    omega
  rw [e0]

/-- A padded 3-symbol final group `s0 s1 s2 =`: two bytes, and the filler
bits of `s2` are never checked. -/
theorem decode001_tail3_pad (v : Variant) (ac : Nat) (s0 s1 s2 : Nat)
    (j0 j1 j2 a1 a2 a3 : Nat)
    (h0 : base64_rev_maps v s0 = (j0 : Int)) (h1 : base64_rev_maps v s1 = (j1 : Int))
    (h2 : base64_rev_maps v s2 = (j2 : Int))
    (ha1 : a1 = ((ac <<< 6) ||| j0) % 2 ^ 32)
    (ha2 : a2 = ((a1 <<< 6) ||| j1) % 2 ^ 32)
    (ha3 : a3 = ((a2 <<< 6) ||| j2) % 2 ^ 32) :
    decode001Go v true ac 0 [s0, s1, s2, 61] =
      some [4 * j0 + j1 / 16, j1 % 16 * 16 + j2 / 4] := by
  have l0 : j0 < 64 := by
    rcases rev_maps_range v s0 with h | ⟨ha, hb⟩ <;> rw [h0] at * <;> omega
  have l1 : j1 < 64 := by
    rcases rev_maps_range v s1 with h | ⟨ha, hb⟩ <;> rw [h1] at * <;> omega
  have l2 : j2 < 64 := by
    rcases rev_maps_range v s2 with h | ⟨ha, hb⟩ <;> rw [h2] at * <;> omega
  have ha1' : a1 = (ac * 2 ^ 6 + j0) % 2 ^ 32 := by
    rw [ha1, Nat.shiftLeft_eq, or_add 6 _ _ (by omega)]
  have ha2' : a2 = (a1 * 2 ^ 6 + j1) % 2 ^ 32 := by
    rw [ha2, Nat.shiftLeft_eq, or_add 6 _ _ (by omega)]
  have ha3' : a3 = (a2 * 2 ^ 6 + j2) % 2 ^ 32 := by
    rw [ha3, Nat.shiftLeft_eq, or_add 6 _ _ (by omega)]
  rw [decode001_cons_valid v true ac 0 s0 _ j0 h0, if_neg (by omega), ← ha1]
  rw [decode001_cons_valid v true a1 6 s1 _ j1 h1, if_pos (by omega), ← ha2]
  rw [show (6 + 6 - 8 : Nat) = 4 by norm_num]
  rw [decode001_cons_valid v true a2 4 s2 _ j2 h2, if_pos (by omega), ← ha3]
  rw [show (4 + 6 - 8 : Nat) = 2 by norm_num]
  rw [decode001_cons_eq, if_pos (by omega)]
  rw [show (2 + 6 - 8 : Nat) = 0 by norm_num]
  rw [decode001_nil, Nat.pow_zero, Nat.mod_one, if_neg (by omega)]
  have e0 : a2 >>> 4 % 256 = 4 * j0 + j1 / 16 := by
    rw [Nat.shiftRight_eq_div_pow]
    omega
  have e1 : a3 >>> 2 % 256 = j1 % 16 * 16 + j2 / 4 := by
    rw [Nat.shiftRight_eq_div_pow]
    omega
  rw [e0, e1]

/-! ### Refinement: the bit-accumulator decoder extends the fixed-grouping one -/

/-- Whenever revision 000's decoder succeeds, revision 001's decoder
(started from any accumulator value at a byte-aligned state) returns the
same bytes. -/
theorem decode000_le_decode001 (v : Variant) (p : Bool) :
    ∀ (s : List Nat) (ac : Nat) (bs : List Nat),
      base64_decode000 v p s = some bs → decode001Go v p ac 0 s = some bs := by
  intro s
  induction s using list4_induction with
  | h4 s0 s1 s2 s3 rest ih =>
      intro ac bs hdec
      by_cases hall : base64_rev_maps v s0 ≠ -1 ∧ base64_rev_maps v s1 ≠ -1 ∧
          base64_rev_maps v s2 ≠ -1 ∧ base64_rev_maps v s3 ≠ -1
      · obtain ⟨g0, g1, g2, g3⟩ := hall
        rw [decode000_cons4_valid v p s0 s1 s2 s3 rest _ _ _ _
          (rev_maps_valid_form v s0 g0) (rev_maps_valid_form v s1 g1)
          (rev_maps_valid_form v s2 g2) (rev_maps_valid_form v s3 g3)] at hdec
        cases hrest : base64_decode000 v p rest with
        | none =>
            rw [hrest] at hdec
            simp at hdec
        | some bs' =>
            rw [hrest] at hdec
            rw [decode001_four_valid v p ac s0 s1 s2 s3 rest _ _ _ _ _ _ _ _
              (rev_maps_valid_form v s0 g0) (rev_maps_valid_form v s1 g1)
              (rev_maps_valid_form v s2 g2) (rev_maps_valid_form v s3 g3)
              rfl rfl rfl rfl]
            rw [ih _ bs' hrest]
            exact hdec
      · have hinv : base64_rev_maps v s0 = -1 ∨ base64_rev_maps v s1 = -1 ∨
            base64_rev_maps v s2 = -1 ∨ base64_rev_maps v s3 = -1 := by
          tauto
        rw [decode000_cons4_invalid v p s0 s1 s2 s3 rest hinv] at hdec
        by_cases hcond : p = false ∨ rest ≠ [] ∨ s3 ≠ 61
        · rw [if_pos hcond] at hdec
          simp at hdec
        · rw [if_neg hcond] at hdec
          push_neg at hcond
          obtain ⟨hpt, hrest0, hs3⟩ := hcond
          have hp : p = true := by
            revert hpt
            cases p <;> simp
          subst hp
          subst hrest0
          subst hs3
          by_cases hs2 : s2 = 61
          · rw [if_pos hs2] at hdec
            subst hs2
            have g0 : base64_rev_maps v s0 ≠ -1 := by
              intro h
              rw [tail2_invalid v s0 s1 (Or.inl h)] at hdec
              simp at hdec
            have g1 : base64_rev_maps v s1 ≠ -1 := by
              intro h
              rw [tail2_invalid v s0 s1 (Or.inr h)] at hdec
              simp at hdec
            rw [tail2_valid v s0 s1 _ _ (rev_maps_valid_form v s0 g0)
              (rev_maps_valid_form v s1 g1)] at hdec
            rw [decode001_tail2_pad v ac s0 s1 _ _ _ _
              (rev_maps_valid_form v s0 g0) (rev_maps_valid_form v s1 g1) rfl rfl]
            by_cases hj : (base64_rev_maps v s1).toNat % 16 = 0
            · rw [if_pos hj] at hdec
              exact hdec
            · rw [if_neg hj] at hdec
              simp at hdec
          · rw [if_neg hs2] at hdec
            have g0 : base64_rev_maps v s0 ≠ -1 := by
              intro h
              rw [tail3_invalid v s0 s1 s2 (Or.inl h)] at hdec
              simp at hdec
            have g1 : base64_rev_maps v s1 ≠ -1 := by
              intro h
              rw [tail3_invalid v s0 s1 s2 (Or.inr (Or.inl h))] at hdec
              simp at hdec
            have g2 : base64_rev_maps v s2 ≠ -1 := by
              intro h
              rw [tail3_invalid v s0 s1 s2 (Or.inr (Or.inr h))] at hdec
              simp at hdec
            rw [tail3_valid v s0 s1 s2 _ _ _ (rev_maps_valid_form v s0 g0)
              (rev_maps_valid_form v s1 g1) (rev_maps_valid_form v s2 g2)] at hdec
            rw [decode001_tail3_pad v ac s0 s1 s2 _ _ _ _ _ _
              (rev_maps_valid_form v s0 g0) (rev_maps_valid_form v s1 g1)
              (rev_maps_valid_form v s2 g2) rfl rfl rfl]
            by_cases hj : (base64_rev_maps v s2).toNat % 4 = 0
            · rw [if_pos hj] at hdec
              exact hdec
            · rw [if_neg hj] at hdec
              simp at hdec
  | h0 =>
      intro ac bs hdec
      simp only [base64_decode000] at hdec
      rw [decode001_nil, Nat.pow_zero, Nat.mod_one, if_neg (by omega)]
      exact hdec
  | h1 a =>
      intro ac bs hdec
      simp only [base64_decode000] at hdec
      simp at hdec
  | h2 a b =>
      intro ac bs hdec
      simp only [base64_decode000] at hdec
      by_cases hp : p = true
      · rw [if_pos hp] at hdec
        simp at hdec
      · have hp' : p = false := by
          revert hp
          cases p <;> simp
        subst hp'
        rw [if_neg (by simp)] at hdec
        have g0 : base64_rev_maps v a ≠ -1 := by
          intro h
          rw [tail2_invalid v a b (Or.inl h)] at hdec
          simp at hdec
        have g1 : base64_rev_maps v b ≠ -1 := by
          intro h
          rw [tail2_invalid v a b (Or.inr h)] at hdec
          simp at hdec
        rw [tail2_valid v a b _ _ (rev_maps_valid_form v a g0)
          (rev_maps_valid_form v b g1)] at hdec
        rw [decode001_tail2 v false ac a b _ _ _ _ (rev_maps_valid_form v a g0)
          (rev_maps_valid_form v b g1) rfl rfl]
        exact hdec
  | h3 a b c =>
      intro ac bs hdec
      simp only [base64_decode000] at hdec
      by_cases hp : p = true
      · rw [if_pos hp] at hdec
        simp at hdec
      · have hp' : p = false := by
          revert hp
          cases p <;> simp
        subst hp'
        rw [if_neg (by simp)] at hdec
        have g0 : base64_rev_maps v a ≠ -1 := by
          intro h
          rw [tail3_invalid v a b c (Or.inl h)] at hdec
          simp at hdec
        have g1 : base64_rev_maps v b ≠ -1 := by
          intro h
          rw [tail3_invalid v a b c (Or.inr (Or.inl h))] at hdec
          simp at hdec
        have g2 : base64_rev_maps v c ≠ -1 := by
          intro h
          rw [tail3_invalid v a b c (Or.inr (Or.inr h))] at hdec
          simp at hdec
        rw [tail3_valid v a b c _ _ _ (rev_maps_valid_form v a g0)
          (rev_maps_valid_form v b g1) (rev_maps_valid_form v c g2)] at hdec
        rw [decode001_tail3 v false ac a b c _ _ _ _ _ _
          (rev_maps_valid_form v a g0) (rev_maps_valid_form v b g1)
          (rev_maps_valid_form v c g2) rfl rfl rfl]
        exact hdec

/-! ### The encoders agree, three bytes at a time -/

/-- A 3-byte group in revision 000's encoder: the four emitted symbols in
arithmetic form. -/
theorem encode000_cons3 (v : Variant) (p : Bool) (b0 b1 b2 : Nat)
    (rest : List Nat) (hb0 : b0 < 256) (hb1 : b1 < 256) (hb2 : b2 < 256) :
    base64_encode000 v p (b0 :: b1 :: b2 :: rest) =
      (base64_tables v).getD (b0 / 4) 0 ::
      (base64_tables v).getD (b0 % 4 * 16 + b1 / 16) 0 ::
      (base64_tables v).getD (b1 % 16 * 4 + b2 / 64) 0 ::
      (base64_tables v).getD (b2 % 64) 0 ::
      base64_encode000 v p rest := by
  have hac : (b0 <<< 16) ||| (b1 <<< 8) ||| b2 = b0 * 2 ^ 16 + b1 * 2 ^ 8 + b2 := by
    rw [Nat.shiftLeft_eq, Nat.shiftLeft_eq, or_add 16 _ _ (by omega),
      show b0 * 2 ^ 16 + b1 * 2 ^ 8 = (b0 * 2 ^ 8 + b1) * 2 ^ 8 by ring,
      or_add 8 _ _ (by omega)]
  have hi0 : (b0 * 2 ^ 16 + b1 * 2 ^ 8 + b2) >>> 18 = b0 / 4 := by
    rw [Nat.shiftRight_eq_div_pow]
    omega
  have hi1 : (b0 * 2 ^ 16 + b1 * 2 ^ 8 + b2) >>> 12 &&& 63 = b0 % 4 * 16 + b1 / 16 := by
    rw [Nat.shiftRight_eq_div_pow, show (63 : Nat) = 2 ^ 6 - 1 by norm_num,
      Nat.and_pow_two_sub_one_eq_mod]
    omega
  have hi2 : (b0 * 2 ^ 16 + b1 * 2 ^ 8 + b2) >>> 6 &&& 63 = b1 % 16 * 4 + b2 / 64 := by
    rw [Nat.shiftRight_eq_div_pow, show (63 : Nat) = 2 ^ 6 - 1 by norm_num,
      Nat.and_pow_two_sub_one_eq_mod]
    omega
  have hi3 : (b0 * 2 ^ 16 + b1 * 2 ^ 8 + b2) &&& 63 = b2 % 64 := by
    rw [show (63 : Nat) = 2 ^ 6 - 1 by norm_num, Nat.and_pow_two_sub_one_eq_mod]
    omega
  simp only [base64_encode000]
  rw [hac, hi0, hi1, hi2, hi3]

/-- The do-while loop entered with 8 accumulated bits: one symbol. -/
theorem encodeEmit_8 (v : Variant) (ac : Nat) :
    encodeEmit v ac 8 = ([(base64_tables v).getD (ac >>> 2 &&& 63) 0], 2) := rfl

/-- The do-while loop entered with 10 accumulated bits: one symbol. -/
theorem encodeEmit_10 (v : Variant) (ac : Nat) :
    encodeEmit v ac 10 = ([(base64_tables v).getD (ac >>> 4 &&& 63) 0], 4) := rfl

/-- The do-while loop entered with 12 accumulated bits: two symbols. -/
theorem encodeEmit_12 (v : Variant) (ac : Nat) :
    encodeEmit v ac 12 =
      ([(base64_tables v).getD (ac >>> 6 &&& 63) 0,
        (base64_tables v).getD (ac &&& 63) 0], 0) := rfl

/-- A 3-byte group in revision 001's encoder loop: four symbols out, and
the `bits` counter returns to zero. -/
theorem encode001Go_cons3 (v : Variant) (ac b0 b1 b2 : Nat) (rest : List Nat)
    (a1 a2 a3 : Nat) (hb0 : b0 < 256) (hb1 : b1 < 256) (hb2 : b2 < 256)
    (ha1 : a1 = ((ac <<< 8) ||| b0) % 2 ^ 32)
    (ha2 : a2 = ((a1 <<< 8) ||| b1) % 2 ^ 32)
    (ha3 : a3 = ((a2 <<< 8) ||| b2) % 2 ^ 32) :
    encode001Go v ac 0 (b0 :: b1 :: b2 :: rest) =
      ([(base64_tables v).getD (b0 / 4) 0,
        (base64_tables v).getD (b0 % 4 * 16 + b1 / 16) 0,
        (base64_tables v).getD (b1 % 16 * 4 + b2 / 64) 0,
        (base64_tables v).getD (b2 % 64) 0] ++ (encode001Go v a3 0 rest).1,
       (encode001Go v a3 0 rest).2) := by
  have ha1' : a1 = (ac * 2 ^ 8 + b0) % 2 ^ 32 := by
    rw [ha1, Nat.shiftLeft_eq, or_add 8 _ _ (by omega)]
  have ha2' : a2 = (a1 * 2 ^ 8 + b1) % 2 ^ 32 := by
    rw [ha2, Nat.shiftLeft_eq, or_add 8 _ _ (by omega)]
  have ha3' : a3 = (a2 * 2 ^ 8 + b2) % 2 ^ 32 := by
    rw [ha3, Nat.shiftLeft_eq, or_add 8 _ _ (by omega)]
  have e0 : a1 >>> 2 &&& 63 = b0 / 4 := by
    rw [Nat.shiftRight_eq_div_pow, show (63 : Nat) = 2 ^ 6 - 1 by norm_num,
      Nat.and_pow_two_sub_one_eq_mod]
    omega
  have e1 : a2 >>> 4 &&& 63 = b0 % 4 * 16 + b1 / 16 := by
    rw [Nat.shiftRight_eq_div_pow, show (63 : Nat) = 2 ^ 6 - 1 by norm_num,
      Nat.and_pow_two_sub_one_eq_mod]
    omega
  have e2 : a3 >>> 6 &&& 63 = b1 % 16 * 4 + b2 / 64 := by
    rw [Nat.shiftRight_eq_div_pow, show (63 : Nat) = 2 ^ 6 - 1 by norm_num,
      Nat.and_pow_two_sub_one_eq_mod]
    omega
  have e3 : a3 &&& 63 = b2 % 64 := by
    rw [show (63 : Nat) = 2 ^ 6 - 1 by norm_num, Nat.and_pow_two_sub_one_eq_mod]
    omega
  simp only [encode001Go]
  rw [← ha1, ← ha2, ← ha3]
  norm_num [encodeEmit_8, encodeEmit_10, encodeEmit_12, e0, e1, e2, e3]

/-- Induction principle following the 3-byte grouping of the encoders. -/
theorem list3_induction {P : List Nat → Prop}
    (h3 : ∀ b0 b1 b2 rest, P rest → P (b0 :: b1 :: b2 :: rest))
    (h0 : P []) (h1 : ∀ b, P [b]) (h2 : ∀ b0 b1, P [b0, b1]) : ∀ s, P s
  | b0 :: b1 :: b2 :: rest =>
      h3 b0 b1 b2 rest (list3_induction h3 h0 h1 h2 rest)
  | [] => h0
  | [b] => h1 b
  | [b0, b1] => h2 b0 b1

/-- The encoder's epilogue only appends to the symbols already emitted. -/
theorem encode001Post_append (v : Variant) (p : Bool) (xs : List Nat)
    (r : List Nat × Nat × Nat) :
    encode001Post v p (xs ++ r.1, r.2) = xs ++ encode001Post v p r := by
  obtain ⟨l, a, b⟩ := r
  unfold encode001Post
  split_ifs <;> simp

/-- The epilogue-append law specialized to a loop result, so that it can be
rewritten syntactically. -/
theorem encode001Post_append_go (v : Variant) (p : Bool) (xs : List Nat)
    (ac2 : Nat) (rest : List Nat) :
    encode001Post v p (xs ++ (encode001Go v ac2 0 rest).1,
        (encode001Go v ac2 0 rest).2)
      = xs ++ encode001Post v p (encode001Go v ac2 0 rest) :=
  encode001Post_append v p xs (encode001Go v ac2 0 rest)

/-- The two encoders produce identical output from any starting
accumulator of the loop of revision 001 (on byte inputs). -/
theorem encode_agree_go (v : Variant) (p : Bool) :
    ∀ bs : List Nat, (∀ b ∈ bs, b < 256) → ∀ ac : Nat,
      encode001Post v p (encode001Go v ac 0 bs) = base64_encode000 v p bs := by
  intro bs
  induction bs using list3_induction with
  | h3 b0 b1 b2 rest ih =>
      intro hb ac
      have hb0 : b0 < 256 := hb b0 (by simp)
      have hb1 : b1 < 256 := hb b1 (by simp)
      have hb2 : b2 < 256 := hb b2 (by simp)
      have hbr : ∀ b ∈ rest, b < 256 := fun b h => hb b (by simp [h])
      rw [encode001Go_cons3 v ac b0 b1 b2 rest _ _ _ hb0 hb1 hb2 rfl rfl rfl]
      rw [encode001Post_append_go]
      rw [ih hbr]
      rw [encode000_cons3 v p b0 b1 b2 rest hb0 hb1 hb2]
      simp
  | h0 =>
      intro hb ac
      cases p <;> rfl
  | h1 b =>
      intro hb ac
      have hb0 : b < 256 := hb b (by simp)
      have e0 : (((ac <<< 8) ||| b) % 2 ^ 32) >>> 2 &&& 63 = b / 4 := by
        simp only [Nat.shiftLeft_eq, Nat.shiftRight_eq_div_pow]
        rw [or_add 8 ac b (by omega),
          show (63 : Nat) = 2 ^ 6 - 1 by norm_num, Nat.and_pow_two_sub_one_eq_mod]
        omega
      have e1 : ((((ac <<< 8) ||| b) % 2 ^ 32) <<< 4) &&& 63 = b % 4 * 16 := by
        simp only [Nat.shiftLeft_eq]
        rw [or_add 8 ac b (by omega),
          show (63 : Nat) = 2 ^ 6 - 1 by norm_num, Nat.and_pow_two_sub_one_eq_mod]
        omega
      have f0 : (b <<< 16) >>> 18 = b / 4 := by
        simp only [Nat.shiftLeft_eq, Nat.shiftRight_eq_div_pow]
        omega
      have f1 : (b <<< 16) >>> 12 &&& 63 = b % 4 * 16 := by
        simp only [Nat.shiftLeft_eq, Nat.shiftRight_eq_div_pow]
        rw [show (63 : Nat) = 2 ^ 6 - 1 by norm_num, Nat.and_pow_two_sub_one_eq_mod]
        omega
      cases p
      · show (base64_tables v).getD ((((ac <<< 8) ||| b) % 2 ^ 32) >>> 2 &&& 63) 0 ::
            (base64_tables v).getD (((((ac <<< 8) ||| b) % 2 ^ 32) <<< 4) &&& 63) 0 ::
            [] =
            (base64_tables v).getD ((b <<< 16) >>> 18) 0 ::
            (base64_tables v).getD ((b <<< 16) >>> 12 &&& 63) 0 :: []
        rw [e0, e1, f0, f1]
      · show (base64_tables v).getD ((((ac <<< 8) ||| b) % 2 ^ 32) >>> 2 &&& 63) 0 ::
            (base64_tables v).getD (((((ac <<< 8) ||| b) % 2 ^ 32) <<< 4) &&& 63) 0 ::
            [61, 61] =
            (base64_tables v).getD ((b <<< 16) >>> 18) 0 ::
            (base64_tables v).getD ((b <<< 16) >>> 12 &&& 63) 0 :: [61, 61]
        rw [e0, e1, f0, f1]
  | h2 b0 b1 =>
      intro hb ac
      have hb0 : b0 < 256 := hb b0 (by simp)
      have hb1 : b1 < 256 := hb b1 (by simp)
      have e0 : (((ac <<< 8) ||| b0) % 2 ^ 32) >>> 2 &&& 63 = b0 / 4 := by
        simp only [Nat.shiftLeft_eq, Nat.shiftRight_eq_div_pow]
        rw [or_add 8 ac b0 (by omega),
          show (63 : Nat) = 2 ^ 6 - 1 by norm_num, Nat.and_pow_two_sub_one_eq_mod]
        omega
      have e1 : ((((((ac <<< 8) ||| b0) % 2 ^ 32) <<< 8) ||| b1) % 2 ^ 32) >>> 4 &&& 63
          = b0 % 4 * 16 + b1 / 16 := by
        simp only [Nat.shiftLeft_eq, Nat.shiftRight_eq_div_pow]
        rw [or_add 8 ac b0 (by omega),
          or_add 8 ((ac * 2 ^ 8 + b0) % 2 ^ 32) b1 (by omega),
          show (63 : Nat) = 2 ^ 6 - 1 by norm_num, Nat.and_pow_two_sub_one_eq_mod]
        omega
      have e2 : (((((((ac <<< 8) ||| b0) % 2 ^ 32) <<< 8) ||| b1) % 2 ^ 32) <<< 2) &&& 63
          = b1 % 16 * 4 := by
        simp only [Nat.shiftLeft_eq]
        rw [or_add 8 ac b0 (by omega),
          or_add 8 ((ac * 2 ^ 8 + b0) % 2 ^ 32) b1 (by omega),
          show (63 : Nat) = 2 ^ 6 - 1 by norm_num, Nat.and_pow_two_sub_one_eq_mod]
        omega
      have hac : (b0 <<< 16) ||| (b1 <<< 8) = b0 * 2 ^ 16 + b1 * 2 ^ 8 := by
        simp only [Nat.shiftLeft_eq]
        rw [or_add 16 b0 (b1 * 2 ^ 8) (by omega)]
      have f0 : ((b0 <<< 16) ||| (b1 <<< 8)) >>> 18 = b0 / 4 := by
        rw [hac, Nat.shiftRight_eq_div_pow]
        omega
      have f1 : ((b0 <<< 16) ||| (b1 <<< 8)) >>> 12 &&& 63 = b0 % 4 * 16 + b1 / 16 := by
        rw [hac, Nat.shiftRight_eq_div_pow,
          show (63 : Nat) = 2 ^ 6 - 1 by norm_num, Nat.and_pow_two_sub_one_eq_mod]
        omega
      have f2 : ((b0 <<< 16) ||| (b1 <<< 8)) >>> 6 &&& 63 = b1 % 16 * 4 := by
        rw [hac, Nat.shiftRight_eq_div_pow,
          show (63 : Nat) = 2 ^ 6 - 1 by norm_num, Nat.and_pow_two_sub_one_eq_mod]
        omega
      cases p
      · show (base64_tables v).getD ((((ac <<< 8) ||| b0) % 2 ^ 32) >>> 2 &&& 63) 0 ::
            (base64_tables v).getD
              (((((((ac <<< 8) ||| b0) % 2 ^ 32) <<< 8) ||| b1) % 2 ^ 32) >>> 4 &&& 63) 0 ::
            (base64_tables v).getD
              ((((((((ac <<< 8) ||| b0) % 2 ^ 32) <<< 8) ||| b1) % 2 ^ 32) <<< 2) &&& 63) 0 ::
            [] =
            (base64_tables v).getD (((b0 <<< 16) ||| (b1 <<< 8)) >>> 18) 0 ::
            (base64_tables v).getD (((b0 <<< 16) ||| (b1 <<< 8)) >>> 12 &&& 63) 0 ::
            (base64_tables v).getD (((b0 <<< 16) ||| (b1 <<< 8)) >>> 6 &&& 63) 0 :: []
        rw [e0, e1, e2, f0, f1, f2]
      · show (base64_tables v).getD ((((ac <<< 8) ||| b0) % 2 ^ 32) >>> 2 &&& 63) 0 ::
            (base64_tables v).getD
              (((((((ac <<< 8) ||| b0) % 2 ^ 32) <<< 8) ||| b1) % 2 ^ 32) >>> 4 &&& 63) 0 ::
            (base64_tables v).getD
              ((((((((ac <<< 8) ||| b0) % 2 ^ 32) <<< 8) ||| b1) % 2 ^ 32) <<< 2) &&& 63) 0 ::
            [61] =
            (base64_tables v).getD (((b0 <<< 16) ||| (b1 <<< 8)) >>> 18) 0 ::
            (base64_tables v).getD (((b0 <<< 16) ||| (b1 <<< 8)) >>> 12 &&& 63) 0 ::
            (base64_tables v).getD (((b0 <<< 16) ||| (b1 <<< 8)) >>> 6 &&& 63) 0 :: [61]
        rw [e0, e1, e2, f0, f1, f2]

/-- The two encoders agree on every byte input. -/
theorem encode_agree (v : Variant) (p : Bool) (bs : List Nat)
    (hb : ∀ b ∈ bs, b < 256) :
    base64_encode001 v p bs = base64_encode000 v p bs := by
  unfold base64_encode001
  exact encode_agree_go v p bs hb 0

/-! ### Round-trip for revision 000 -/

/-- Padded encode-then-decode is the identity for revision 000. -/
theorem roundtrip000 (v : Variant) :
    ∀ bs : List Nat, (∀ b ∈ bs, b < 256) →
      base64_decode000 v true (base64_encode000 v true bs) = some bs := by
  intro bs
  induction bs using list3_induction with
  | h3 b0 b1 b2 rest ih =>
      intro hb
      have hb0 : b0 < 256 := hb b0 (by simp)
      have hb1 : b1 < 256 := hb b1 (by simp)
      have hb2 : b2 < 256 := hb b2 (by simp)
      have hbr : ∀ b ∈ rest, b < 256 := fun b h => hb b (by simp [h])
      rw [encode000_cons3 v true b0 b1 b2 rest hb0 hb1 hb2]
      rw [decode000_cons4_valid v true _ _ _ _ _ (b0 / 4) (b0 % 4 * 16 + b1 / 16)
        (b1 % 16 * 4 + b2 / 64) (b2 % 64)
        (rev_maps_table v (b0 / 4) (by omega))
        (rev_maps_table v (b0 % 4 * 16 + b1 / 16) (by omega))
        (rev_maps_table v (b1 % 16 * 4 + b2 / 64) (by omega))
        (rev_maps_table v (b2 % 64) (by omega))]
      rw [ih hbr]
      show some ((4 * (b0 / 4) + (b0 % 4 * 16 + b1 / 16) / 16) ::
          ((b0 % 4 * 16 + b1 / 16) % 16 * 16 + (b1 % 16 * 4 + b2 / 64) / 4) ::
          ((b1 % 16 * 4 + b2 / 64) % 4 * 64 + b2 % 64) :: rest)
        = some (b0 :: b1 :: b2 :: rest)
      have eB0 : 4 * (b0 / 4) + (b0 % 4 * 16 + b1 / 16) / 16 = b0 := by omega
      have eB1 : (b0 % 4 * 16 + b1 / 16) % 16 * 16 + (b1 % 16 * 4 + b2 / 64) / 4
          = b1 := by omega
      have eB2 : (b1 % 16 * 4 + b2 / 64) % 4 * 64 + b2 % 64 = b2 := by omega
      rw [eB0, eB1, eB2]
  | h0 =>
      intro hb
      rfl
  | h1 b =>
      intro hb
      have hb0 : b < 256 := hb b (by simp)
      have f0 : (b <<< 16) >>> 18 = b / 4 := by
        simp only [Nat.shiftLeft_eq, Nat.shiftRight_eq_div_pow]
        omega
      have f1 : (b <<< 16) >>> 12 &&& 63 = b % 4 * 16 := by
        simp only [Nat.shiftLeft_eq, Nat.shiftRight_eq_div_pow]
        rw [show (63 : Nat) = 2 ^ 6 - 1 by norm_num, Nat.and_pow_two_sub_one_eq_mod]
        omega
      have henc : base64_encode000 v true [b] =
          [(base64_tables v).getD (b / 4) 0,
           (base64_tables v).getD (b % 4 * 16) 0, 61, 61] := by
        show (base64_tables v).getD ((b <<< 16) >>> 18) 0 ::
            (base64_tables v).getD ((b <<< 16) >>> 12 &&& 63) 0 :: [61, 61] = _
        rw [f0, f1]
      rw [henc]
      rw [decode000_cons4_invalid v true _ _ 61 61 []
        (Or.inr (Or.inr (Or.inr (rev_maps_61 v))))]
      rw [if_neg (by simp), if_pos rfl]
      rw [tail2_valid v _ _ (b / 4) (b % 4 * 16)
        (rev_maps_table v (b / 4) (by omega))
        (rev_maps_table v (b % 4 * 16) (by omega))]
      rw [if_pos (by omega)]
      have eB : 4 * (b / 4) + b % 4 * 16 / 16 = b := by omega
      rw [eB]
  | h2 b0 b1 =>
      intro hb
      have hb0 : b0 < 256 := hb b0 (by simp)
      have hb1 : b1 < 256 := hb b1 (by simp)
      have hac : (b0 <<< 16) ||| (b1 <<< 8) = b0 * 2 ^ 16 + b1 * 2 ^ 8 := by
        simp only [Nat.shiftLeft_eq]
        rw [or_add 16 b0 (b1 * 2 ^ 8) (by omega)]
      have f0 : ((b0 <<< 16) ||| (b1 <<< 8)) >>> 18 = b0 / 4 := by
        rw [hac, Nat.shiftRight_eq_div_pow]
        omega
      have f1 : ((b0 <<< 16) ||| (b1 <<< 8)) >>> 12 &&& 63 = b0 % 4 * 16 + b1 / 16 := by
        rw [hac, Nat.shiftRight_eq_div_pow,
          show (63 : Nat) = 2 ^ 6 - 1 by norm_num, Nat.and_pow_two_sub_one_eq_mod]
        omega
      have f2 : ((b0 <<< 16) ||| (b1 <<< 8)) >>> 6 &&& 63 = b1 % 16 * 4 := by
        rw [hac, Nat.shiftRight_eq_div_pow,
          show (63 : Nat) = 2 ^ 6 - 1 by norm_num, Nat.and_pow_two_sub_one_eq_mod]
        omega
      have henc : base64_encode000 v true [b0, b1] =
          [(base64_tables v).getD (b0 / 4) 0,
           (base64_tables v).getD (b0 % 4 * 16 + b1 / 16) 0,
           (base64_tables v).getD (b1 % 16 * 4) 0, 61] := by
        show (base64_tables v).getD (((b0 <<< 16) ||| (b1 <<< 8)) >>> 18) 0 ::
            (base64_tables v).getD (((b0 <<< 16) ||| (b1 <<< 8)) >>> 12 &&& 63) 0 ::
            (base64_tables v).getD (((b0 <<< 16) ||| (b1 <<< 8)) >>> 6 &&& 63) 0 ::
            [61] = _
        rw [f0, f1, f2]
      rw [henc]
      rw [decode000_cons4_invalid v true _ _ _ 61 []
        (Or.inr (Or.inr (Or.inr (rev_maps_61 v))))]
      rw [if_neg (by simp), if_neg (table_ne_61 v (b1 % 16 * 4) (by omega))]
      rw [tail3_valid v _ _ _ (b0 / 4) (b0 % 4 * 16 + b1 / 16) (b1 % 16 * 4)
        (rev_maps_table v (b0 / 4) (by omega))
        (rev_maps_table v (b0 % 4 * 16 + b1 / 16) (by omega))
        (rev_maps_table v (b1 % 16 * 4) (by omega))]
      rw [if_pos (by omega)]
      have eB0 : 4 * (b0 / 4) + (b0 % 4 * 16 + b1 / 16) / 16 = b0 := by omega
      have eB1 : (b0 % 4 * 16 + b1 / 16) % 16 * 16 + b1 % 16 * 4 / 4 = b1 := by omega
      rw [eB0, eB1]

/-- Padded encode-then-decode is the identity for revision 001. -/
theorem roundtrip001 (v : Variant) (bs : List Nat) (hb : ∀ b ∈ bs, b < 256) :
    base64_decode001 v true (base64_encode001 v true bs) = some bs := by
  rw [encode_agree v true bs hb]
  exact decode000_le_decode001 v true _ 0 bs (roundtrip000 v bs hb)

/-! ### Encoded length -/

/-- The length of revision 000's output: `4 * ceil(n/3)` with padding and
`ceil(8n/6)` without. -/
theorem encode000_length (v : Variant) :
    ∀ bs : List Nat,
      (base64_encode000 v true bs).length = 4 * ((bs.length + 2) / 3) ∧
      (base64_encode000 v false bs).length = (8 * bs.length + 5) / 6 := by
  intro bs
  induction bs using list3_induction with
  | h3 b0 b1 b2 rest ih =>
      obtain ⟨ih1, ih2⟩ := ih
      constructor
      · simp only [base64_encode000, List.length_cons]
        omega
      · simp only [base64_encode000, List.length_cons]
        omega
  | h0 =>
      constructor <;> rfl
  | h1 b =>
      constructor <;> simp [base64_encode000]
  | h2 b0 b1 =>
      constructor <;> simp [base64_encode000]

/-! ### Dropping a prefix of full alphabet groups -/

/-- Prepending full groups of alphabet symbols does not change whether
revision 000's decoder fails. -/
theorem decode000_drop_groups (v : Variant) (p : Bool) :
    ∀ body : List Nat, (∀ c ∈ body, base64_rev_maps v c ≠ -1) →
      body.length % 4 = 0 → ∀ t : List Nat,
      (base64_decode000 v p (body ++ t) = none ↔ base64_decode000 v p t = none) := by
  intro body
  induction body using list4_induction with
  | h4 s0 s1 s2 s3 rest ih =>
      intro hv hlen t
      have g0 : base64_rev_maps v s0 ≠ -1 := hv s0 (by simp)
      have g1 : base64_rev_maps v s1 ≠ -1 := hv s1 (by simp)
      have g2 : base64_rev_maps v s2 ≠ -1 := hv s2 (by simp)
      have g3 : base64_rev_maps v s3 ≠ -1 := hv s3 (by simp)
      have hvr : ∀ c ∈ rest, base64_rev_maps v c ≠ -1 := fun c h => hv c (by simp [h])
      have hlr : rest.length % 4 = 0 := by
        simp only [List.length_cons] at hlen
        omega
      show base64_decode000 v p (s0 :: s1 :: s2 :: s3 :: (rest ++ t)) = none ↔ _
      rw [decode000_cons4_valid v p s0 s1 s2 s3 (rest ++ t) _ _ _ _
        (rev_maps_valid_form v s0 g0) (rev_maps_valid_form v s1 g1)
        (rev_maps_valid_form v s2 g2) (rev_maps_valid_form v s3 g3)]
      rw [Option.map_eq_none']
      exact ih hvr hlr t
  | h0 =>
      intro hv hlen t
      rfl
  | h1 a =>
      intro hv hlen
      simp at hlen
  | h2 a b =>
      intro hv hlen
      simp at hlen
  | h3 a b c =>
      intro hv hlen
      simp at hlen

/-- Prepending full groups of alphabet symbols only prepends decoded bytes
in revision 001's decoder: failure is preserved both ways. -/
theorem decode001_drop_groups (v : Variant) (p : Bool) :
    ∀ body : List Nat, (∀ c ∈ body, base64_rev_maps v c ≠ -1) →
      body.length % 4 = 0 → ∀ (t : List Nat) (ac : Nat),
      ∃ (ac2 : Nat) (pre : List Nat),
        decode001Go v p ac 0 (body ++ t) =
          (decode001Go v p ac2 0 t).map (fun bs => pre ++ bs) := by
  intro body
  induction body using list4_induction with
  | h4 s0 s1 s2 s3 rest ih =>
      intro hv hlen t ac
      have g0 : base64_rev_maps v s0 ≠ -1 := hv s0 (by simp)
      have g1 : base64_rev_maps v s1 ≠ -1 := hv s1 (by simp)
      have g2 : base64_rev_maps v s2 ≠ -1 := hv s2 (by simp)
      have g3 : base64_rev_maps v s3 ≠ -1 := hv s3 (by simp)
      have hvr : ∀ c ∈ rest, base64_rev_maps v c ≠ -1 := fun c h => hv c (by simp [h])
      have hlr : rest.length % 4 = 0 := by
        simp only [List.length_cons] at hlen
        omega
      show ∃ ac2 pre, decode001Go v p ac 0 (s0 :: s1 :: s2 :: s3 :: (rest ++ t)) = _
      rw [decode001_four_valid v p ac s0 s1 s2 s3 (rest ++ t) _ _ _ _ _ _ _ _
        (rev_maps_valid_form v s0 g0) (rev_maps_valid_form v s1 g1)
        (rev_maps_valid_form v s2 g2) (rev_maps_valid_form v s3 g3)
        rfl rfl rfl rfl]
      obtain ⟨ac2, pre, hpre⟩ := ih hvr hlr t
        ((((((((((((ac <<< 6) ||| (base64_rev_maps v s0).toNat) % 2 ^ 32) <<< 6) ||| (base64_rev_maps v s1).toNat) % 2 ^ 32) <<< 6) ||| (base64_rev_maps v s2).toNat) % 2 ^ 32) <<< 6) ||| (base64_rev_maps v s3).toNat) % 2 ^ 32)
      rw [hpre]
      refine ⟨ac2, (4 * (base64_rev_maps v s0).toNat + (base64_rev_maps v s1).toNat / 16) ::
        ((base64_rev_maps v s1).toNat % 16 * 16 + (base64_rev_maps v s2).toNat / 4) ::
        ((base64_rev_maps v s2).toNat % 4 * 64 + (base64_rev_maps v s3).toNat) :: pre, ?_⟩
      cases decode001Go v p ac2 0 t with
      | none => rfl
      | some bs => simp
  | h0 =>
      intro hv hlen t ac
      exact ⟨ac, [], by simp⟩
  | h1 a =>
      intro hv hlen
      simp at hlen
  | h2 a b =>
      intro hv hlen
      simp at hlen
  | h3 a b c =>
      intro hv hlen
      simp at hlen

/-! ### Shape of inputs accepted by the padded fixed-grouping decoder -/

/-- If revision 000's decoder succeeds with padding enabled, the input
length is a multiple of 4 and every `'='` lies in a final suffix of at
most two `'='` characters. -/
theorem decode000_pad_shape (v : Variant) :
    ∀ s bs : List Nat, base64_decode000 v true s = some bs →
      s.length % 4 = 0 ∧
      ∃ t r : List Nat, s = t ++ r ∧ 61 ∉ t ∧ (r = [] ∨ r = [61] ∨ r = [61, 61]) := by
  intro s
  induction s using list4_induction with
  | h4 s0 s1 s2 s3 rest ih =>
      intro bs hdec
      by_cases hall : base64_rev_maps v s0 ≠ -1 ∧ base64_rev_maps v s1 ≠ -1 ∧
          base64_rev_maps v s2 ≠ -1 ∧ base64_rev_maps v s3 ≠ -1
      · obtain ⟨g0, g1, g2, g3⟩ := hall
        rw [decode000_cons4_valid v true s0 s1 s2 s3 rest _ _ _ _
          (rev_maps_valid_form v s0 g0) (rev_maps_valid_form v s1 g1)
          (rev_maps_valid_form v s2 g2) (rev_maps_valid_form v s3 g3)] at hdec
        cases hrest : base64_decode000 v true rest with
        | none =>
            rw [hrest] at hdec
            simp at hdec
        | some bs' =>
            rw [hrest] at hdec
            obtain ⟨hlen, t, r, hsr, ht61, hr⟩ := ih bs' hrest
            have n0 : s0 ≠ 61 := fun h => g0 (h ▸ rev_maps_61 v)
            have n1 : s1 ≠ 61 := fun h => g1 (h ▸ rev_maps_61 v)
            have n2 : s2 ≠ 61 := fun h => g2 (h ▸ rev_maps_61 v)
            have n3 : s3 ≠ 61 := fun h => g3 (h ▸ rev_maps_61 v)
            constructor
            · simp only [List.length_cons]
              omega
            · refine ⟨s0 :: s1 :: s2 :: s3 :: t, r, ?_, ?_, hr⟩
              · rw [hsr]
                simp
              · intro hmem
                simp only [List.mem_cons] at hmem
                rcases hmem with h | h | h | h | h
                · exact n0 h.symm
                · exact n1 h.symm
                · exact n2 h.symm
                · exact n3 h.symm
                · exact ht61 h
      · have hinv : base64_rev_maps v s0 = -1 ∨ base64_rev_maps v s1 = -1 ∨
            base64_rev_maps v s2 = -1 ∨ base64_rev_maps v s3 = -1 := by
          tauto
        rw [decode000_cons4_invalid v true s0 s1 s2 s3 rest hinv] at hdec
        by_cases hcond : (true : Bool) = false ∨ rest ≠ [] ∨ s3 ≠ 61
        · rw [if_pos hcond] at hdec
          simp at hdec
        · rw [if_neg hcond] at hdec
          push_neg at hcond
          obtain ⟨-, hrest0, hs3⟩ := hcond
          subst hrest0
          subst hs3
          by_cases hs2 : s2 = 61
          · rw [if_pos hs2] at hdec
            subst hs2
            have g0 : base64_rev_maps v s0 ≠ -1 := by
              intro h
              rw [tail2_invalid v s0 s1 (Or.inl h)] at hdec
              simp at hdec
            have g1 : base64_rev_maps v s1 ≠ -1 := by
              intro h
              rw [tail2_invalid v s0 s1 (Or.inr h)] at hdec
              simp at hdec
            have n0 : s0 ≠ 61 := fun h => g0 (h ▸ rev_maps_61 v)
            have n1 : s1 ≠ 61 := fun h => g1 (h ▸ rev_maps_61 v)
            refine ⟨by simp, [s0, s1], [61, 61], rfl, ?_, Or.inr (Or.inr rfl)⟩
            intro hmem
            simp only [List.mem_cons, List.not_mem_nil, or_false] at hmem
            rcases hmem with h | h
            · exact n0 h.symm
            · exact n1 h.symm
          · rw [if_neg hs2] at hdec
            have g0 : base64_rev_maps v s0 ≠ -1 := by
              intro h
              rw [tail3_invalid v s0 s1 s2 (Or.inl h)] at hdec
              simp at hdec
            have g1 : base64_rev_maps v s1 ≠ -1 := by
              intro h
              rw [tail3_invalid v s0 s1 s2 (Or.inr (Or.inl h))] at hdec
              simp at hdec
            have g2 : base64_rev_maps v s2 ≠ -1 := by
              intro h
              rw [tail3_invalid v s0 s1 s2 (Or.inr (Or.inr h))] at hdec
              simp at hdec
            have n0 : s0 ≠ 61 := fun h => g0 (h ▸ rev_maps_61 v)
            have n1 : s1 ≠ 61 := fun h => g1 (h ▸ rev_maps_61 v)
            have n2 : s2 ≠ 61 := fun h => g2 (h ▸ rev_maps_61 v)
            refine ⟨by simp, [s0, s1, s2], [61], rfl, ?_, Or.inr (Or.inl rfl)⟩
            intro hmem
            simp only [List.mem_cons, List.not_mem_nil, or_false] at hmem
            rcases hmem with h | h | h
            · exact n0 h.symm
            · exact n1 h.symm
            · exact n2 h.symm
  | h0 =>
      intro bs hdec
      exact ⟨rfl, [], [], by simp, by simp, Or.inl rfl⟩
  | h1 a =>
      intro bs hdec
      simp only [base64_decode000] at hdec
      exact absurd hdec (by simp)
  | h2 a b =>
      intro bs hdec
      simp only [base64_decode000] at hdec
      simp at hdec
  | h3 a b c =>
      intro bs hdec
      simp only [base64_decode000] at hdec
      simp at hdec

/-! ### Output lengths of the decoders without padding -/

/-- A leftover of one symbol fails in revision 000's decoder without
padding. -/
theorem decode000_false_mod1 (v : Variant) :
    ∀ s : List Nat, s.length % 4 = 1 → base64_decode000 v false s = none := by
  intro s
  induction s using list4_induction with
  | h4 s0 s1 s2 s3 rest ih =>
      intro hlen
      have hlr : rest.length % 4 = 1 := by
        simp only [List.length_cons] at hlen
        omega
      by_cases hall : base64_rev_maps v s0 ≠ -1 ∧ base64_rev_maps v s1 ≠ -1 ∧
          base64_rev_maps v s2 ≠ -1 ∧ base64_rev_maps v s3 ≠ -1
      · obtain ⟨g0, g1, g2, g3⟩ := hall
        rw [decode000_cons4_valid v false s0 s1 s2 s3 rest _ _ _ _
          (rev_maps_valid_form v s0 g0) (rev_maps_valid_form v s1 g1)
          (rev_maps_valid_form v s2 g2) (rev_maps_valid_form v s3 g3)]
        rw [ih hlr]
        rfl
      · have hinv : base64_rev_maps v s0 = -1 ∨ base64_rev_maps v s1 = -1 ∨
            base64_rev_maps v s2 = -1 ∨ base64_rev_maps v s3 = -1 := by
          tauto
        rw [decode000_cons4_invalid v false s0 s1 s2 s3 rest hinv]
        rw [if_pos (Or.inl rfl)]
  | h0 =>
      intro hlen
      simp at hlen
  | h1 a =>
      intro hlen
      rfl
  | h2 a b =>
      intro hlen
      simp at hlen
  | h3 a b c =>
      intro hlen
      simp at hlen

/-- The 2-symbol trailing-group code emits exactly one byte. -/
theorem tail2_length (v : Variant) (s0 s1 : Nat) (bs : List Nat)
    (h : decodeTail000 v [s0, s1] = some bs) : bs.length = 1 := by
  simp only [decodeTail000] at h
  split at h
  · simp at h
  · rw [← Option.some.inj h]
    rfl

/-- The 3-symbol trailing-group code emits exactly two bytes. -/
theorem tail3_length (v : Variant) (s0 s1 s2 : Nat) (bs : List Nat)
    (h : decodeTail000 v [s0, s1, s2] = some bs) : bs.length = 2 := by
  simp only [decodeTail000] at h
  split at h
  · simp at h
  · rw [← Option.some.inj h]
    rfl

/-- Output length of revision 000's decoder without padding: three bytes
per full group, one extra byte for a 2-symbol leftover, two for a
3-symbol leftover. -/
theorem decode000_false_length (v : Variant) :
    ∀ s bs : List Nat, base64_decode000 v false s = some bs →
      bs.length = 3 * s.length / 4 := by
  intro s
  induction s using list4_induction with
  | h4 s0 s1 s2 s3 rest ih =>
      intro bs hdec
      by_cases hall : base64_rev_maps v s0 ≠ -1 ∧ base64_rev_maps v s1 ≠ -1 ∧
          base64_rev_maps v s2 ≠ -1 ∧ base64_rev_maps v s3 ≠ -1
      · obtain ⟨g0, g1, g2, g3⟩ := hall
        rw [decode000_cons4_valid v false s0 s1 s2 s3 rest _ _ _ _
          (rev_maps_valid_form v s0 g0) (rev_maps_valid_form v s1 g1)
          (rev_maps_valid_form v s2 g2) (rev_maps_valid_form v s3 g3)] at hdec
        cases hrest : base64_decode000 v false rest with
        | none =>
            rw [hrest] at hdec
            simp at hdec
        | some bs' =>
            rw [hrest] at hdec
            have hlen := ih bs' hrest
            rw [← Option.some.inj hdec]
            simp only [List.length_cons]
            omega
      · have hinv : base64_rev_maps v s0 = -1 ∨ base64_rev_maps v s1 = -1 ∨
            base64_rev_maps v s2 = -1 ∨ base64_rev_maps v s3 = -1 := by
          tauto
        rw [decode000_cons4_invalid v false s0 s1 s2 s3 rest hinv,
          if_pos (Or.inl rfl)] at hdec
        simp at hdec
  | h0 =>
      intro bs hdec
      rw [← Option.some.inj hdec]
      rfl
  | h1 a =>
      intro bs hdec
      simp only [base64_decode000] at hdec
      exact absurd hdec (by simp)
  | h2 a b =>
      intro bs hdec
      simp only [base64_decode000] at hdec
      rw [if_neg (by simp)] at hdec
      rw [tail2_length v a b bs hdec]
      simp
  | h3 a b c =>
      intro bs hdec
      simp only [base64_decode000] at hdec
      rw [if_neg (by simp)] at hdec
      rw [tail3_length v a b c bs hdec]
      simp

/-- Output length of revision 001's decoder without padding: a byte per
8 accumulated bits. -/
theorem decode001_false_length (v : Variant) :
    ∀ (s : List Nat) (ac bits : Nat) (bs : List Nat), bits < 8 →
      decode001Go v false ac bits s = some bs →
      bs.length = (bits + 6 * s.length) / 8 := by
  intro s
  induction s with
  | nil =>
      intro ac bits bs hb hdec
      rw [decode001_nil] at hdec
      split at hdec
      · simp at hdec
      · rw [← Option.some.inj hdec]
        simp only [List.length_nil, List.length]
        omega
  | cons c rest ih =>
      intro ac bits bs hb hdec
      simp only [decode001Go] at hdec
      rw [if_neg (by simp)] at hdec
      split at hdec
      · simp at hdec
      · split at hdec
        · rename_i hge
          cases hr : decode001Go v false (((ac <<< 6) ||| (base64_rev_maps v c).toNat)
              % 2 ^ 32) (bits + 6 - 8) rest with
          | none =>
              rw [hr] at hdec
              simp at hdec
          | some bs' =>
              rw [hr] at hdec
              have := ih _ _ _ (by omega) hr
              rw [← Option.some.inj hdec]
              simp only [List.length_cons]
              omega
        · rename_i hlt
          have := ih _ _ _ (by omega) hdec
          simp only [List.length_cons]
          omega

/-! ### The claims -/

/-- Claim C1: for every byte sequence and every variant, decoding the
padded encoding with padding enabled returns exactly the input bytes, for
each of the two encode/decode implementations. -/
theorem claim_C1 (v : Variant) (bs : List Nat) (hb : ∀ b ∈ bs, b < 256) :
    base64_decode000 v true (base64_encode000 v true bs) = some bs ∧
    base64_decode001 v true (base64_encode001 v true bs) = some bs :=
  ⟨roundtrip000 v bs hb, roundtrip001 v bs hb⟩

/-- Witness for C1 at the byte sequence "foo" under the standard variant. -/
theorem claim_C1_witness :
    base64_decode000 .std true (base64_encode000 .std true [102, 111, 111])
        = some [102, 111, 111] ∧
    base64_decode001 .std true (base64_encode001 .std true [102, 111, 111])
        = some [102, 111, 111] :=
  claim_C1 Variant.std [102, 111, 111] (by decide)

/-- Claim C3 is false as stated: on the 1-symbol unpadded input "A" the
fixed-grouping decoder fails while the bit-accumulator decoder succeeds
with no output bytes, so the two decoders are not equivalent. -/
theorem claim_C3_counterexample :
    base64_decode000 .std false [65] = none ∧
    base64_decode001 .std false [65] = some [] := by
  decide

/-- Claim C3 (amended): the bit-accumulator decoder refines the
fixed-grouping decoder — whenever revision 000's decoder succeeds,
revision 001's decoder returns the same bytes — but the converse fails:
revision 001 accepts some inputs revision 000 rejects. -/
theorem claim_C3_amended (v : Variant) (p : Bool) (s bs : List Nat)
    (h : base64_decode000 v p s = some bs) :
    base64_decode001 v p s = some bs :=
  decode000_le_decode001 v p s 0 bs h

/-- Witness for the amended C3 at the padded input "Zm9v". -/
theorem claim_C3_amended_witness :
    base64_decode001 .std true [90, 109, 57, 118] = some [102, 111, 111] :=
  claim_C3_amended Variant.std true [90, 109, 57, 118] [102, 111, 111] (by decide)

/-- Claim C6: for every variant and padding flag, decoding fails on any
input containing a non-padding character whose reverse-table entry is the
sentinel, in both implementations. -/
theorem claim_C6 (v : Variant) (p : Bool) (s : List Nat) (c : Nat)
    (hmem : c ∈ s) (hc : base64_rev_maps v c = -1) (hne : c ≠ 61) :
    base64_decode000 v p s = none ∧ base64_decode001 v p s = none :=
  ⟨decode000_invalid v p c hc (Or.inr hne) s hmem,
   decode001_invalid v p c hc (Or.inr hne) s 0 0 hmem⟩

/-- Witness for C6: an input containing '+' fails under the URL-safe
variant. -/
theorem claim_C6_witness :
    base64_decode000 .urlsafe true [43, 65, 61, 61] = none ∧
    base64_decode001 .urlsafe true [43, 65, 61, 61] = none :=
  claim_C6 Variant.urlsafe true [43, 65, 61, 61] 43 (by decide) (by decide) (by decide)

/-- Claim C10: with padding disabled, decoding fails on every input that
contains '=' anywhere, for every variant, in both implementations. -/
theorem claim_C10 (v : Variant) (s : List Nat) (hmem : 61 ∈ s) :
    base64_decode000 v false s = none ∧ base64_decode001 v false s = none :=
  ⟨decode000_invalid v false 61 (rev_maps_61 v) (Or.inl rfl) s hmem,
   decode001_invalid v false 61 (rev_maps_61 v) (Or.inl rfl) s 0 0 hmem⟩

/-- Witness for C10 at the input "Zm8=" decoded without padding. -/
theorem claim_C10_witness :
    base64_decode000 .std false [90, 109, 56, 61] = none ∧
    base64_decode001 .std false [90, 109, 56, 61] = none :=
  claim_C10 Variant.std [90, 109, 56, 61] (by decide)

/-- Claim C8: the two encode implementations produce identical output
for every byte sequence, padding flag and variant. -/
theorem claim_C8 (v : Variant) (p : Bool) (bs : List Nat)
    (hb : ∀ b ∈ bs, b < 256) :
    base64_encode000 v p bs = base64_encode001 v p bs :=
  (encode_agree v p bs hb).symm

/-- Witness for C8 at a 4-byte input under the IMAP variant. -/
theorem claim_C8_witness :
    base64_encode000 .imap true [0, 255, 7, 9] = base64_encode001 .imap true [0, 255, 7, 9] :=
  claim_C8 Variant.imap true [0, 255, 7, 9] (by decide)

/-- Claim C7: the encoded length is `4 * ceil(n/3)` with padding and
`ceil(8n/6)` without, for both implementations; encoding is total (both
encoders are functions defined on all byte sequences, the empty sequence
yielding length 0, as the witness checks). -/
theorem claim_C7 (v : Variant) (bs : List Nat) (hb : ∀ b ∈ bs, b < 256) :
    (base64_encode000 v true bs).length = 4 * ((bs.length + 2) / 3) ∧
    (base64_encode000 v false bs).length = (8 * bs.length + 5) / 6 ∧
    (base64_encode001 v true bs).length = 4 * ((bs.length + 2) / 3) ∧
    (base64_encode001 v false bs).length = (8 * bs.length + 5) / 6 := by
  obtain ⟨h1, h2⟩ := encode000_length v bs
  refine ⟨h1, h2, ?_, ?_⟩
  · rw [encode_agree v true bs hb]
    exact h1
  · rw [encode_agree v false bs hb]
    exact h2

/-- Witness for C7 at the empty sequence: length 0. -/
theorem claim_C7_witness :
    (base64_encode000 .std true ([] : List Nat)).length = 4 * ((List.length ([] : List Nat) + 2) / 3) ∧
    (base64_encode000 .std false ([] : List Nat)).length = (8 * List.length ([] : List Nat) + 5) / 6 ∧
    (base64_encode001 .std true ([] : List Nat)).length = 4 * ((List.length ([] : List Nat) + 2) / 3) ∧
    (base64_encode001 .std false ([] : List Nat)).length = (8 * List.length ([] : List Nat) + 5) / 6 :=
  claim_C7 Variant.std [] (by decide)

/-- Claim C9: the three forward alphabets have 64 distinct symbols, agree
except at indices 62 and 63 (where they take the documented values), the
reverse table inverts the forward table, and every other byte is mapped to
the sentinel. -/
theorem claim_C9 : ∀ v : Variant,
    ((base64_tables v).length = 64 ∧ (base64_tables v).Nodup) ∧
    (∀ i, i < 64 → i ≠ 62 → i ≠ 63 →
      (base64_tables v).getD i 0 = (base64_tables .std).getD i 0) ∧
    ((base64_tables .std).getD 62 0 = 43 ∧ (base64_tables .std).getD 63 0 = 47 ∧
     (base64_tables .urlsafe).getD 62 0 = 45 ∧ (base64_tables .urlsafe).getD 63 0 = 95 ∧
     (base64_tables .imap).getD 62 0 = 43 ∧ (base64_tables .imap).getD 63 0 = 44) ∧
    (∀ i, i < 64 → base64_rev_maps v ((base64_tables v).getD i 0) = (i : Int)) ∧
    (∀ c, c < 256 → c ∉ base64_tables v → base64_rev_maps v c = -1) := by
  intro v
  cases v <;> exact ⟨by decide, by decide, by decide, by decide, by decide⟩

/-- Witness for C9: the reverse table inverts index 62 of the standard
alphabet, and '+' (absent from the URL-safe alphabet) maps to the
sentinel there. -/
theorem claim_C9_witness :
    base64_rev_maps .std ((base64_tables .std).getD 62 0) = (62 : Int) ∧
    base64_rev_maps .urlsafe 43 = -1 :=
  ⟨(claim_C9 Variant.std).2.2.2.1 62 (by decide),
   (claim_C9 Variant.urlsafe).2.2.2.2 43 (by decide) (by decide)⟩

/-- Claim C4 is false as stated: the bit-accumulator decoder accepts the
padded input "Zm8" whose length 3 is not a multiple of 4. -/
theorem claim_C4_counterexample :
    List.length [90, 109, 56] % 4 ≠ 0 ∧
    base64_decode001 .std true [90, 109, 56] = some [102, 111] := by
  decide

/-- Claim C4 (amended): the length-multiple-of-4 and '='-placement rules
hold for the fixed-grouping decoder — with padding enabled it fails on any
length not a multiple of 4, any success splits the input into '='-free
symbols followed by at most two trailing '=', and decode("Zm9=") fails —
while the bit-accumulator decoder enforces neither rule. -/
theorem claim_C4_amended (v : Variant) :
    (∀ s : List Nat, s.length % 4 ≠ 0 → base64_decode000 v true s = none) ∧
    (∀ s bs : List Nat, base64_decode000 v true s = some bs →
      s.length % 4 = 0 ∧
      ∃ t r : List Nat, s = t ++ r ∧ 61 ∉ t ∧ (r = [] ∨ r = [61] ∨ r = [61, 61])) ∧
    base64_decode000 .std true [90, 109, 57, 61] = none := by
  refine ⟨?_, decode000_pad_shape v, by decide⟩
  intro s hlen
  cases hdec : base64_decode000 v true s with
  | none => rfl
  | some bs => exact absurd (decode000_pad_shape v s bs hdec).1 hlen

/-- Witness for the amended C4: a length-1 input fails, and "Zm9=" fails. -/
theorem claim_C4_amended_witness :
    base64_decode000 .std true [65] = none ∧
    base64_decode000 .std true [90, 109, 57, 61] = none :=
  ⟨(claim_C4_amended Variant.std).1 [65] (by decide),
   (claim_C4_amended Variant.std).2.2⟩

/-- Claim C5 is false as stated: the bit-accumulator decoder accepts the
1-leftover unpadded input "A" (symbol value 0), returning no bytes. -/
theorem claim_C5_counterexample :
    List.length [65] % 4 = 1 ∧ base64_decode001 .std false [65] = some [] := by
  decide

/-- Claim C5 (amended): without padding the fixed-grouping decoder fails
on every 1-leftover input; output byte counts (three per full group, one
for a 2-symbol leftover, two for a 3-symbol leftover — i.e. `3n/4`) hold
for both decoders on success; the bit-accumulator decoder instead accepts
a 1-leftover input exactly when the leftover symbol's 6-bit value is 0. -/
theorem claim_C5_amended (v : Variant) :
    (∀ s : List Nat, s.length % 4 = 1 → base64_decode000 v false s = none) ∧
    (∀ s bs : List Nat, base64_decode000 v false s = some bs →
      bs.length = 3 * s.length / 4) ∧
    (∀ s bs : List Nat, base64_decode001 v false s = some bs →
      bs.length = 3 * s.length / 4) := by
  refine ⟨decode000_false_mod1 v, decode000_false_length v, ?_⟩
  intro s bs h
  have hlen := decode001_false_length v s 0 0 bs (by omega) h
  omega

/-- Witness for the amended C5: a 1-leftover fails in revision 000, and
the 3-symbol input "Zm8" decodes to 2 bytes. -/
theorem claim_C5_amended_witness :
    base64_decode000 .std false [66] = none ∧
    List.length [102, 111] = 3 * List.length [90, 109, 56] / 4 :=
  ⟨(claim_C5_amended Variant.std).1 [66] (by decide),
   (claim_C5_amended Variant.std).2.1 [90, 109, 56] [102, 111] (by decide)⟩

/-- Claim C2 is false as stated: the input "Zm9=" has a final partial
group whose filler bits (the low 2 bits of '9', value 61) are non-zero,
yet the bit-accumulator decoder accepts it in padded mode. -/
theorem claim_C2_counterexample :
    base64_rev_maps .std 57 % 4 ≠ 0 ∧
    base64_decode001 .std true [90, 109, 57, 61] = some [102, 111] := by
  decide

/-- Claim C2 (amended): non-zero filler bits in a final partial group are
rejected by the fixed-grouping decoder in both modes and by the
bit-accumulator decoder in unpadded mode (and a 2-symbol unpadded tail is
accepted iff the low 4 bits of its second symbol are zero); the
bit-accumulator decoder in padded mode does not check filler bits that
are followed by '='. -/
theorem claim_C2_amended (v : Variant) (body : List Nat) (a b c : Nat)
    (ja jb jc : Nat)
    (hbody : ∀ x ∈ body, base64_rev_maps v x ≠ -1) (hlen : body.length % 4 = 0)
    (hja : base64_rev_maps v a = (ja : Int)) (hjb : base64_rev_maps v b = (jb : Int))
    (hjc : base64_rev_maps v c = (jc : Int)) :
    (jb % 16 ≠ 0 →
      base64_decode000 v false (body ++ [a, b]) = none ∧
      base64_decode001 v false (body ++ [a, b]) = none ∧
      base64_decode000 v true (body ++ [a, b, 61, 61]) = none) ∧
    (jb % 16 = 0 →
      base64_decode000 v false (body ++ [a, b]) ≠ none ∧
      base64_decode001 v false (body ++ [a, b]) ≠ none) ∧
    (jc % 4 ≠ 0 →
      base64_decode000 v false (body ++ [a, b, c]) = none ∧
      base64_decode001 v false (body ++ [a, b, c]) = none ∧
      base64_decode000 v true (body ++ [a, b, c, 61]) = none) ∧
    (jc % 4 = 0 →
      base64_decode000 v false (body ++ [a, b, c]) ≠ none ∧
      base64_decode001 v false (body ++ [a, b, c]) ≠ none) := by
  have t2_000 : base64_decode000 v false [a, b] =
      if jb % 16 = 0 then some [4 * ja + jb / 16] else none := by
    simp only [base64_decode000]
    rw [if_neg (by simp), tail2_valid v a b ja jb hja hjb]
  have t3_000 : base64_decode000 v false [a, b, c] =
      if jc % 4 = 0 then some [4 * ja + jb / 16, jb % 16 * 16 + jc / 4] else none := by
    simp only [base64_decode000]
    rw [if_neg (by simp), tail3_valid v a b c ja jb jc hja hjb hjc]
  have t2_001 : ∀ ac, decode001Go v false ac 0 [a, b] =
      if jb % 16 = 0 then some [4 * ja + jb / 16] else none := fun ac =>
    decode001_tail2 v false ac a b ja jb _ _ hja hjb rfl rfl
  have t3_001 : ∀ ac, decode001Go v false ac 0 [a, b, c] =
      if jc % 4 = 0 then some [4 * ja + jb / 16, jb % 16 * 16 + jc / 4] else none :=
    fun ac => decode001_tail3 v false ac a b c ja jb jc _ _ _ hja hjb hjc rfl rfl rfl
  have t2p_000 : base64_decode000 v true [a, b, 61, 61] =
      if jb % 16 = 0 then some [4 * ja + jb / 16] else none := by
    rw [decode000_cons4_invalid v true a b 61 61 []
      (Or.inr (Or.inr (Or.inr (rev_maps_61 v))))]
    rw [if_neg (by simp), if_pos rfl, tail2_valid v a b ja jb hja hjb]
  have t3p_000 : base64_decode000 v true [a, b, c, 61] =
      if jc % 4 = 0 then some [4 * ja + jb / 16, jb % 16 * 16 + jc / 4] else none := by
    rw [decode000_cons4_invalid v true a b c 61 []
      (Or.inr (Or.inr (Or.inr (rev_maps_61 v))))]
    rw [if_neg (by simp), if_neg (valid_ne_61 v c jc hjc),
      tail3_valid v a b c ja jb jc hja hjb hjc]
  refine ⟨?_, ?_, ?_, ?_⟩
  · intro hne
    refine ⟨?_, ?_, ?_⟩
    · exact (decode000_drop_groups v false body hbody hlen [a, b]).mpr
        (by rw [t2_000, if_neg hne])
    · obtain ⟨ac2, pre, hpre⟩ :=
        decode001_drop_groups v false body hbody hlen [a, b] 0
      show decode001Go v false 0 0 (body ++ [a, b]) = none
      rw [hpre, t2_001 ac2, if_neg hne]
      rfl
    · exact (decode000_drop_groups v true body hbody hlen [a, b, 61, 61]).mpr
        (by rw [t2p_000, if_neg hne])
  · intro hz
    constructor
    · intro hnone
      have h2 := (decode000_drop_groups v false body hbody hlen [a, b]).mp hnone
      rw [t2_000, if_pos hz] at h2
      simp at h2
    · intro hnone
      obtain ⟨ac2, pre, hpre⟩ :=
        decode001_drop_groups v false body hbody hlen [a, b] 0
      rw [show base64_decode001 v false (body ++ [a, b])
          = decode001Go v false 0 0 (body ++ [a, b]) from rfl, hpre,
        t2_001 ac2, if_pos hz] at hnone
      simp at hnone
  · intro hne
    refine ⟨?_, ?_, ?_⟩
    · exact (decode000_drop_groups v false body hbody hlen [a, b, c]).mpr
        (by rw [t3_000, if_neg hne])
    · obtain ⟨ac2, pre, hpre⟩ :=
        decode001_drop_groups v false body hbody hlen [a, b, c] 0
      show decode001Go v false 0 0 (body ++ [a, b, c]) = none
      rw [hpre, t3_001 ac2, if_neg hne]
      rfl
    · exact (decode000_drop_groups v true body hbody hlen [a, b, c, 61]).mpr
        (by rw [t3p_000, if_neg hne])
  · intro hz
    constructor
    · intro hnone
      have h2 := (decode000_drop_groups v false body hbody hlen [a, b, c]).mp hnone
      rw [t3_000, if_pos hz] at h2
      simp at h2
    · intro hnone
      obtain ⟨ac2, pre, hpre⟩ :=
        decode001_drop_groups v false body hbody hlen [a, b, c] 0
      rw [show base64_decode001 v false (body ++ [a, b, c])
          = decode001Go v false 0 0 (body ++ [a, b, c]) from rfl, hpre,
        t3_001 ac2, if_pos hz] at hnone
      simp at hnone

/-- Witness for the amended C2: the unpadded tail "/x" (filler bits
`49 % 16 ≠ 0`) is rejected by both decoders and by the padded "/x==";
the tail "/w" (zero filler) is accepted. -/
theorem claim_C2_amended_witness :
    (base64_decode000 .std false ([] ++ [47, 120]) = none ∧
     base64_decode001 .std false ([] ++ [47, 120]) = none ∧
     base64_decode000 .std true ([] ++ [47, 120, 61, 61]) = none) ∧
    (base64_decode000 .std false ([] ++ [47, 119]) ≠ none ∧
     base64_decode001 .std false ([] ++ [47, 119]) ≠ none) :=
  ⟨(claim_C2_amended Variant.std [] 47 120 65 63 49 0 (by simp) (by decide)
      (by decide) (by decide) (by decide)).1 (by decide),
   (claim_C2_amended Variant.std [] 47 119 65 63 48 0 (by simp) (by decide)
      (by decide) (by decide) (by decide)).2.1 (by decide)⟩
